import Mathlib

/-!
Verification of the traceshark ingestion core against its specification.

The C++ sources are shallowly embedded:
* C strings (`char *`, `TString`) become `List Char` (the list of the bytes
  before the NUL terminator; the inputs of interest are ASCII).
* Machine integers become `Nat`/`Int`; where the C code relies on wrap-around
  of an n-bit quantity the embedding reduces modulo `2 ^ n` at the same
  operation.
* `double` arithmetic of the timestamp parser is modelled over `ℚ`; the
  parser keeps the integer and the fractional part in integer accumulators,
  so the rational model captures the intended exact decimal value.
* Fallible C functions that report failure through a `bool &ok` or a null
  pointer return `Option`/pairs with a `Bool` here.
* Functions declared in headers that are not part of the source tree
  (`parser/paramhelpers.h`, `parser/perf/helpers.h`, `vtl/…`, Qt types) are
  modelled from the specification; each such definition carries a doc
  comment starting with `Modelled from the spec:`.
-/

/-- A C byte string: the characters before the NUL terminator. -/
abbrev TString := List Char

/-- The digit test `*c >= '0' && *c <= '9'` of the C sources
(`Char.isDigit` is exactly this range check). -/
abbrev isDigitCh (c : Char) : Bool := c.isDigit

/-- Numeric value of a digit character, `*c - '0'`. -/
def digitVal (c : Char) : Nat := c.toNat - 48

/-- `2 ^ 64`, the modulus of C `unsigned long long` arithmetic. -/
def U64 : Nat := 18446744073709551616

/-- `2 ^ 32`, the modulus of C `unsigned int` arithmetic. -/
def U32 : Nat := 4294967296

/-- Horner evaluation of a digit string on top of an accumulator:
the mathematical (non-wrapping) value of the loop
`base *= 10; base += d`. -/
def hornerAux (ds : List Char) (b : Nat) : Nat :=
  ds.foldl (fun a c => a * 10 + digitVal c) b

/-- Mathematical value of a digit string. -/
def natOfDigits (ds : List Char) : Nat := hornerAux ds 0

namespace TShark

/-- The integer-part loop of `TShark::timeStrToDouble`
(src/misc/traceshark.h:170-176): consume digits into the
`unsigned long long base` accumulator (64-bit wrap-around), stop at the
first non-digit.  Returns the accumulator and the rest of the string. -/
def digitLoop64 : List Char → Nat → Nat × List Char
  | [], base => (base, [])
  | c :: cs, base =>
    if isDigitCh c then digitLoop64 cs ((base * 10 + digitVal c) % U64)
    else (base, c :: cs)

/-- The fractional-part loop of `TShark::timeStrToDouble`
(src/misc/traceshark.h:181-190): consume digits into `base` while also
multiplying the `unsigned long long divint` divisor by 10 per digit
(both 64-bit).  Returns `(base, divint, rest)`. -/
def fracLoop64 : List Char → Nat → Nat → Nat × Nat × List Char
  | [], base, divint => (base, divint, [])
  | c :: cs, base, divint =>
    if isDigitCh c then
      fracLoop64 cs ((base * 10 + digitVal c) % U64) ((divint * 10) % U64)
    else (base, divint, c :: cs)

/-- Final step of `TShark::timeStrToDouble` (src/misc/traceshark.h:195-204):
the character the loops stopped at must be `':'` (an empty rest stands for
the NUL terminator); on success return the signed value and ok = true,
otherwise 0 and ok = false. -/
def timeStrFinish (r : ℚ) (s3 : List Char) (isNeg : Bool) : ℚ × Bool :=
  if s3.headD ' ' = ':' then (if isNeg then -r else r, true) else (0, false)

/-- The optional fractional part of `TShark::timeStrToDouble`
(src/misc/traceshark.h:180-193): if the integer part stopped at `'.'`,
run the fractional loop and add `base / divint` to the running value. -/
def timeStrFrac (r : ℚ) (s2 : List Char) (isNeg : Bool) : ℚ × Bool :=
  if s2.headD ' ' = '.' then
    let q := fracLoop64 s2.tail 0 1
    timeStrFinish (r + (q.1 : ℚ) / (q.2.1 : ℚ)) q.2.2 isNeg
  else timeStrFinish r s2 isNeg

/-- Integer part plus the remaining steps of `TShark::timeStrToDouble`. -/
def timeStrCore (s1 : List Char) (isNeg : Bool) : ℚ × Bool :=
  let p := digitLoop64 s1 0
  timeStrFrac (p.1 : ℚ) p.2 isNeg

/-- `TShark::timeStrToDouble` (src/misc/traceshark.h:153-205).
Returns the parsed value together with the `ok` flag.  The C `double`
arithmetic is modelled exactly over `ℚ`; the integer and fractional
accumulators wrap at 64 bits as in the source. -/
def timeStrToDouble (str : List Char) : ℚ × Bool :=
  if str.headD ' ' = '-' then timeStrCore str.tail true
  else timeStrCore str false

/-- The set of strings on which `timeStrToDouble` reports success, read off
from the control flow of the source: an optional `'-'`, a possibly empty
digit run, an optional `'.'` followed by a possibly empty digit run, and
then a `':'` (anything may follow the colon). -/
def timeTokenShape (str : List Char) : Bool :=
  let s1 := if str.headD ' ' = '-' then str.tail else str
  let s2 := s1.dropWhile isDigitCh
  let s3 := if s2.headD ' ' = '.' then s2.tail.dropWhile isDigitCh else s2
  s3.headD ' ' == ':'

/-- The acceptance condition claimed by the specification, following its
words: the string must match `[-]?DIGITS(.DIGITS)?` immediately followed by
`':'`, where `DIGITS` denotes a non-empty digit run. -/
def specTimeAccept (str : List Char) : Bool :=
  let s1 := if str.headD ' ' = '-' then str.tail else str
  let d1 := s1.takeWhile isDigitCh
  let s2 := s1.dropWhile isDigitCh
  if d1.isEmpty then false
  else if s2.headD ' ' = '.' then
    !(s2.tail.takeWhile isDigitCh).isEmpty
      && ((s2.tail.dropWhile isDigitCh).headD ' ' == ':')
  else s2.headD ' ' == ':'

/-- The digit run forming the integer part of a timestamp token. -/
def strIntDigits (str : List Char) : List Char :=
  let s1 := if str.headD ' ' = '-' then str.tail else str
  s1.takeWhile isDigitCh

/-- The digit run after the `'.'` of a sign-stripped timestamp token
(empty when there is no `'.'`). -/
def fracDigitsOf (s1 : List Char) : List Char :=
  let s2 := s1.dropWhile isDigitCh
  if s2.headD ' ' = '.' then s2.tail.takeWhile isDigitCh else []

/-- The digit run forming the fractional part of a timestamp token
(empty when there is no `'.'`). -/
def strFracDigits (str : List Char) : List Char :=
  fracDigitsOf (if str.headD ' ' = '-' then str.tail else str)

/-- Byte value of a character of a C string (ASCII inputs: the byte is the
code point). -/
def byteOf (c : Char) : Nat := c.toNat % 256

/-- `TShark::StrHash32` (src/misc/traceshark.h:212-225).  The
`union value32` is initialised to zero and filled byte-wise; the resulting
32-bit word is modelled little-endian: byte `i` contributes with weight
`256 ^ i`.  Note the source fills only byte 0 before the early return for
strings shorter than four bytes. -/
def StrHash32 (str : TString) : Nat :=
  if str.length < 1 then 0
  else
    let b0 := byteOf (str.getD 0 ' ')
    if str.length < 4 then b0
    else
      b0 + 256 * byteOf (str.getD 1 ' ') + 65536 * byteOf (str.getD 2 ' ')
        + 16777216 * byteOf (str.getD 3 ' ')

end TShark

/-! ### Facts about the timestamp parser -/

namespace TShark

theorem isDigitCh_toNat (c : Char) (h : isDigitCh c = true) :
    48 ≤ c.toNat ∧ c.toNat ≤ 57 := by
  simp only [isDigitCh, Char.isDigit, Bool.and_eq_true, decide_eq_true_eq] at h
  exact ⟨h.1, h.2⟩

theorem digitLoop64_snd (s : List Char) (b : Nat) :
    (digitLoop64 s b).2 = s.dropWhile isDigitCh := by
  induction s generalizing b with
  | nil => simp [digitLoop64, List.dropWhile]
  | cons c cs ih =>
    by_cases hc : isDigitCh c = true
    · simp [digitLoop64, hc, List.dropWhile, ih]
    · simp [digitLoop64, hc, List.dropWhile]

theorem hornerAux_le (ds : List Char) (b : Nat) : b ≤ hornerAux ds b := by
  induction ds generalizing b with
  | nil => simp [hornerAux]
  | cons c cs ih =>
    have h := ih (b * 10 + digitVal c)
    have : b ≤ b * 10 + digitVal c := by omega
    calc b ≤ b * 10 + digitVal c := this
    _ ≤ hornerAux cs (b * 10 + digitVal c) := h
    _ = hornerAux (c :: cs) b := by simp [hornerAux, List.foldl]

theorem hornerAux_lt (ds : List Char) (b : Nat)
    (hds : ∀ c ∈ ds, isDigitCh c = true) :
    hornerAux ds b < (b + 1) * 10 ^ ds.length := by
  induction ds generalizing b with
  | nil => simp [hornerAux]
  | cons c cs ih =>
    have h := ih (b * 10 + digitVal c) (fun x hx => hds x (List.mem_cons_of_mem c hx))
    have hd : digitVal c ≤ 9 := by
      have hc := isDigitCh_toNat c (hds c (List.mem_cons_self c cs))
      unfold digitVal; omega
    have : (b * 10 + digitVal c + 1) * 10 ^ cs.length
        ≤ (b + 1) * 10 ^ (cs.length + 1) := by
      have : b * 10 + digitVal c + 1 ≤ (b + 1) * 10 := by omega
      calc (b * 10 + digitVal c + 1) * 10 ^ cs.length
          ≤ (b + 1) * 10 * 10 ^ cs.length := by
            exact Nat.mul_le_mul_right _ this
      _ = (b + 1) * 10 ^ (cs.length + 1) := by ring
    have heq : hornerAux (c :: cs) b = hornerAux cs (b * 10 + digitVal c) := by
      simp [hornerAux, List.foldl]
    rw [heq]
    simp only [List.length_cons]
    exact lt_of_lt_of_le h this

theorem digitLoop64_fst (s : List Char) (b : Nat)
    (h : hornerAux (s.takeWhile isDigitCh) b < U64) :
    (digitLoop64 s b).1 = hornerAux (s.takeWhile isDigitCh) b := by
  induction s generalizing b with
  | nil => simp [digitLoop64, hornerAux]
  | cons c cs ih =>
    by_cases hc : isDigitCh c = true
    · have htake : (c :: cs).takeWhile isDigitCh = c :: cs.takeWhile isDigitCh := by
        simp [List.takeWhile, hc]
      rw [htake] at h ⊢
      have heq : hornerAux (c :: cs.takeWhile isDigitCh) b
          = hornerAux (cs.takeWhile isDigitCh) (b * 10 + digitVal c) := by
        simp [hornerAux, List.foldl]
      rw [heq] at h ⊢
      have hle : b * 10 + digitVal c ≤ hornerAux (cs.takeWhile isDigitCh) (b * 10 + digitVal c) :=
        hornerAux_le _ _
      have hmod : (b * 10 + digitVal c) % U64 = b * 10 + digitVal c :=
        Nat.mod_eq_of_lt (by omega)
      simp only [digitLoop64, hc, if_true, hmod]
      exact ih _ h
    · have htake : (c :: cs).takeWhile isDigitCh = [] := by
        simp [List.takeWhile, hc]
      rw [htake]
      simp [digitLoop64, hc, hornerAux]

theorem fracLoop64_snd (s : List Char) (b d : Nat) :
    (fracLoop64 s b d).2.2 = s.dropWhile isDigitCh := by
  induction s generalizing b d with
  | nil => simp [fracLoop64, List.dropWhile]
  | cons c cs ih =>
    by_cases hc : isDigitCh c = true
    · simp [fracLoop64, hc, List.dropWhile, ih]
    · simp [fracLoop64, hc, List.dropWhile]

theorem fracLoop64_fst (s : List Char) (b d : Nat)
    (h : hornerAux (s.takeWhile isDigitCh) b < U64) :
    (fracLoop64 s b d).1 = hornerAux (s.takeWhile isDigitCh) b := by
  induction s generalizing b d with
  | nil => simp [fracLoop64, hornerAux]
  | cons c cs ih =>
    by_cases hc : isDigitCh c = true
    · have htake : (c :: cs).takeWhile isDigitCh = c :: cs.takeWhile isDigitCh := by
        simp [List.takeWhile, hc]
      rw [htake] at h ⊢
      have heq : hornerAux (c :: cs.takeWhile isDigitCh) b
          = hornerAux (cs.takeWhile isDigitCh) (b * 10 + digitVal c) := by
        simp [hornerAux, List.foldl]
      rw [heq] at h ⊢
      have hle : b * 10 + digitVal c ≤ hornerAux (cs.takeWhile isDigitCh) (b * 10 + digitVal c) :=
        hornerAux_le _ _
      have hmod : (b * 10 + digitVal c) % U64 = b * 10 + digitVal c :=
        Nat.mod_eq_of_lt (by omega)
      simp only [fracLoop64, hc, if_true, hmod]
      exact ih _ _ h
    · have htake : (c :: cs).takeWhile isDigitCh = [] := by
        simp [List.takeWhile, hc]
      rw [htake]
      simp [fracLoop64, hc, hornerAux]

theorem fracLoop64_div (s : List Char) (b d : Nat)
    (h : d * 10 ^ (s.takeWhile isDigitCh).length < U64) :
    (fracLoop64 s b d).2.1 = d * 10 ^ (s.takeWhile isDigitCh).length := by
  induction s generalizing b d with
  | nil => simp [fracLoop64]
  | cons c cs ih =>
    by_cases hc : isDigitCh c = true
    · have htake : (c :: cs).takeWhile isDigitCh = c :: cs.takeWhile isDigitCh := by
        simp [List.takeWhile, hc]
      rw [htake] at h ⊢
      simp only [List.length_cons] at h ⊢
      have hlt : d * 10 < U64 := by
        have h1 : (1 : Nat) ≤ 10 ^ (cs.takeWhile isDigitCh).length :=
          Nat.one_le_pow _ _ (by norm_num)
        calc d * 10 = d * 10 * 1 := by ring
        _ ≤ d * 10 * 10 ^ (cs.takeWhile isDigitCh).length :=
          Nat.mul_le_mul_left _ h1
        _ = d * 10 ^ ((cs.takeWhile isDigitCh).length + 1) := by ring
        _ < U64 := h
      have hmod : (d * 10) % U64 = d * 10 := Nat.mod_eq_of_lt hlt
      have hlt2 : (d * 10) * 10 ^ (cs.takeWhile isDigitCh).length < U64 := by
        have heq2 : (d * 10) * 10 ^ (cs.takeWhile isDigitCh).length
            = d * 10 ^ ((cs.takeWhile isDigitCh).length + 1) := by ring
        rw [heq2]; exact h
      simp only [fracLoop64, hc, if_true, hmod]
      rw [ih _ _ hlt2]
      ring
    · have htake : (c :: cs).takeWhile isDigitCh = [] := by
        simp [List.takeWhile, hc]
      rw [htake]
      simp [fracLoop64, hc]

theorem natOfDigits_lt_U64 (ds : List Char) (h : ds.length ≤ 19)
    (hds : ∀ c ∈ ds, isDigitCh c = true) :
    hornerAux ds 0 < U64 := by
  have h1 := hornerAux_lt ds 0 hds
  have h2 : 10 ^ ds.length ≤ 10 ^ 19 := Nat.pow_le_pow_right (by norm_num) h
  have : (10 : Nat) ^ 19 < U64 := by norm_num [U64]
  omega

theorem pow10_lt_U64 (n : Nat) (h : n ≤ 19) : 10 ^ n < U64 := by
  have h2 : 10 ^ n ≤ 10 ^ 19 := Nat.pow_le_pow_right (by norm_num) h
  have : (10 : Nat) ^ 19 < U64 := by norm_num [U64]
  omega

theorem timeStrFinish_snd (r : ℚ) (s3 : List Char) (neg : Bool) :
    (timeStrFinish r s3 neg).2 = (s3.headD ' ' == ':') := by
  unfold timeStrFinish
  split <;> simp_all

theorem timeStrFrac_snd (r : ℚ) (s2 : List Char) (neg : Bool) :
    (timeStrFrac r s2 neg).2
      = ((if s2.headD ' ' = '.' then s2.tail.dropWhile isDigitCh else s2).headD ' '
          == ':') := by
  unfold timeStrFrac
  split
  case isTrue h =>
    rw [timeStrFinish_snd, fracLoop64_snd]
  case isFalse h =>
    rw [timeStrFinish_snd]

theorem timeStrCore_snd (s1 : List Char) (neg : Bool) :
    (timeStrCore s1 neg).2
      = ((if (s1.dropWhile isDigitCh).headD ' ' = '.'
            then (s1.dropWhile isDigitCh).tail.dropWhile isDigitCh
            else s1.dropWhile isDigitCh).headD ' ' == ':') := by
  show (timeStrFrac ((digitLoop64 s1 0).1 : ℚ) (digitLoop64 s1 0).2 neg).2 = _
  rw [timeStrFrac_snd, digitLoop64_snd]

/-- `timeStrToDouble` reports success exactly on the strings of
`timeTokenShape`. -/
theorem timeStrToDouble_snd (str : List Char) :
    (timeStrToDouble str).2 = timeTokenShape str := by
  unfold timeStrToDouble timeTokenShape
  split
  · exact timeStrCore_snd str.tail true
  · exact timeStrCore_snd str false

theorem takeWhile_all_digit (s : List Char) :
    ∀ c ∈ s.takeWhile isDigitCh, isDigitCh c = true :=
  fun _ hc => List.mem_takeWhile_imp hc

/-- Value of `timeStrCore` on accepted inputs whose digit runs fit in the
64-bit accumulators. -/
theorem timeStrCore_val (s1 : List Char) (neg : Bool)
    (hsh : ((if (s1.dropWhile isDigitCh).headD ' ' = '.'
              then (s1.dropWhile isDigitCh).tail.dropWhile isDigitCh
              else s1.dropWhile isDigitCh).headD ' ' == ':') = true)
    (h1 : (s1.takeWhile isDigitCh).length ≤ 19)
    (h2 : (fracDigitsOf s1).length ≤ 19) :
    (timeStrCore s1 neg).1
      = (if neg then (-1 : ℚ) else 1) *
          ((natOfDigits (s1.takeWhile isDigitCh) : ℚ)
            + (natOfDigits (fracDigitsOf s1) : ℚ)
              / (10 ^ (fracDigitsOf s1).length : ℚ)) := by
  have hbase : (digitLoop64 s1 0).1 = natOfDigits (s1.takeWhile isDigitCh) :=
    digitLoop64_fst s1 0 (natOfDigits_lt_U64 _ h1 (takeWhile_all_digit s1))
  show (timeStrFrac ((digitLoop64 s1 0).1 : ℚ) (digitLoop64 s1 0).2 neg).1 = _
  unfold timeStrFrac
  rw [digitLoop64_snd, hbase]
  by_cases hdot : (s1.dropWhile isDigitCh).headD ' ' = '.'
  · have hfd : fracDigitsOf s1 = (s1.dropWhile isDigitCh).tail.takeWhile isDigitCh := by
      unfold fracDigitsOf
      rw [if_pos hdot]
    rw [hfd] at h2
    rw [if_pos hdot, hfd]
    simp only [if_pos hdot] at hsh
    set D := (s1.dropWhile isDigitCh).tail with hD
    have hfrac : (fracLoop64 D 0 1).1 = natOfDigits (D.takeWhile isDigitCh) :=
      fracLoop64_fst D 0 1 (natOfDigits_lt_U64 _ h2 (takeWhile_all_digit D))
    have hdiv : (fracLoop64 D 0 1).2.1 = 10 ^ (D.takeWhile isDigitCh).length := by
      have := fracLoop64_div D 0 1 (by
        rw [one_mul]; exact pow10_lt_U64 _ h2)
      rwa [one_mul] at this
    show (timeStrFinish ((natOfDigits (s1.takeWhile isDigitCh) : ℚ)
        + ((fracLoop64 D 0 1).1 : ℚ) / ((fracLoop64 D 0 1).2.1 : ℚ))
        (fracLoop64 D 0 1).2.2 neg).1 = _
    rw [hfrac, hdiv, fracLoop64_snd]
    unfold timeStrFinish
    rw [if_pos (by simpa using hsh)]
    cases neg <;> simp [neg_one_mul]
  · have hfd : fracDigitsOf s1 = [] := by
      unfold fracDigitsOf
      rw [if_neg hdot]
    rw [hfd] at h2
    rw [if_neg hdot, hfd]
    simp only [if_neg hdot] at hsh
    unfold timeStrFinish
    rw [if_pos (by simpa using hsh)]
    cases neg <;> simp [natOfDigits, hornerAux]

end TShark

namespace TShark

theorem timeStrFinish_of_not_ok (r : ℚ) (s3 : List Char) (neg : Bool)
    (h : (timeStrFinish r s3 neg).2 = false) :
    timeStrFinish r s3 neg = (0, false) := by
  unfold timeStrFinish at h ⊢
  by_cases hc : s3.headD ' ' = ':'
  · rw [if_pos hc] at h
    simp at h
  · rw [if_neg hc]

theorem timeStrFrac_of_not_ok (r : ℚ) (s2 : List Char) (neg : Bool)
    (h : (timeStrFrac r s2 neg).2 = false) :
    timeStrFrac r s2 neg = (0, false) := by
  unfold timeStrFrac at h ⊢
  by_cases hc : s2.headD ' ' = '.'
  · rw [if_pos hc] at h ⊢
    exact timeStrFinish_of_not_ok _ _ _ h
  · rw [if_neg hc] at h ⊢
    exact timeStrFinish_of_not_ok _ _ _ h

theorem timeStrCore_of_not_ok (s1 : List Char) (neg : Bool)
    (h : (timeStrCore s1 neg).2 = false) :
    timeStrCore s1 neg = (0, false) := by
  have h2 : (timeStrFrac ((digitLoop64 s1 0).1 : ℚ) (digitLoop64 s1 0).2 neg).2
      = false := h
  exact timeStrFrac_of_not_ok _ _ _ h2

/-- On every rejected input `timeStrToDouble` returns the value 0 together
with ok = false: each error exit of the source is `goto error`, which
returns 0 after clearing the flag. -/
theorem timeStrToDouble_of_not_ok (str : List Char)
    (h : (timeStrToDouble str).2 = false) :
    timeStrToDouble str = (0, false) := by
  unfold timeStrToDouble at h ⊢
  by_cases hc : str.headD ' ' = '-'
  · rw [if_pos hc] at h ⊢
    exact timeStrCore_of_not_ok _ _ h
  · rw [if_neg hc] at h ⊢
    exact timeStrCore_of_not_ok _ _ h

end TShark

/-- C1 (corrected): for every NUL-terminated input, `TShark::timeStrToDouble`
sets ok = true exactly when the input starts with `[-]?D*(.D*)?:` where the
digit runs may be empty (`timeTokenShape`); on every other input it sets
ok = false and returns 0; and on accepted inputs whose digit runs have at
most 19 digits (so that the 64-bit accumulators of the source do not wrap)
it returns the signed decimal value: integer part plus fractional part,
negated when a leading `'-'` is present.  The original claim required
non-empty digit runs (`specTimeAccept`); the input `":"` is accepted by
the code, see the counterexample. -/
theorem timeStrToDouble_ok_iff_value :
    ∀ str : List Char,
      (TShark.timeStrToDouble str).2 = TShark.timeTokenShape str
      ∧ (TShark.timeTokenShape str = false →
          TShark.timeStrToDouble str = (0, false))
      ∧ (TShark.timeTokenShape str = true →
          (TShark.strIntDigits str).length ≤ 19 →
          (TShark.strFracDigits str).length ≤ 19 →
          (TShark.timeStrToDouble str).1 =
            (if str.headD ' ' = '-' then (-1 : ℚ) else 1) *
              ((natOfDigits (TShark.strIntDigits str) : ℚ)
                + (natOfDigits (TShark.strFracDigits str) : ℚ)
                  / (10 ^ (TShark.strFracDigits str).length : ℚ))) := by
  intro str
  refine ⟨TShark.timeStrToDouble_snd str, ?_, ?_⟩
  · intro hsh
    exact TShark.timeStrToDouble_of_not_ok str
      ((TShark.timeStrToDouble_snd str).trans hsh)
  · intro hsh h1 h2
    unfold TShark.timeStrToDouble
    unfold TShark.timeTokenShape at hsh
    unfold TShark.strIntDigits at h1 ⊢
    unfold TShark.strFracDigits at h2 ⊢
    by_cases hneg : str.headD ' ' = '-'
    · simp only [if_pos hneg] at hsh h1 h2 ⊢
      exact TShark.timeStrCore_val str.tail true hsh h1 h2
    · simp only [if_neg hneg] at hsh h1 h2 ⊢
      exact TShark.timeStrCore_val str false hsh h1 h2

/-- C1 counterexample: the input `":"` (an empty digit run before the colon)
is accepted by `TShark::timeStrToDouble` with ok = true, while the
specification's pattern `[-]?DIGITS(.DIGITS)?:` with non-empty digit runs
rejects it, so the claimed acceptance condition is not the code's. -/
theorem timeStrToDouble_claim_cex :
    (TShark.timeStrToDouble [':']).2 = true
      ∧ TShark.specTimeAccept [':'] = false := by
  constructor
  · decide
  · decide

/-- Witness for C1: the theorem applied to the concrete inputs
`"123.456:"` (accepted, value 123.456 = 15432/125) and `"123.456X"`
(rejected). -/
theorem timeStrToDouble_ok_iff_value_witness :
    (TShark.timeStrToDouble ("123.456:".toList)).2 = true
      ∧ (TShark.timeStrToDouble ("123.456:".toList)).1 = 15432 / 125
      ∧ TShark.timeStrToDouble ("123.456X".toList) = (0, false) := by
  have h := timeStrToDouble_ok_iff_value ("123.456:".toList)
  have hX := timeStrToDouble_ok_iff_value ("123.456X".toList)
  refine ⟨?_, ?_, ?_⟩
  · rw [h.1]; decide
  · rw [h.2.2 (by decide) (by decide) (by decide)]
    have hI : natOfDigits (TShark.strIntDigits ("123.456:".toList)) = 123 := by decide
    have hF : natOfDigits (TShark.strFracDigits ("123.456:".toList)) = 456 := by decide
    have hL : (TShark.strFracDigits ("123.456:".toList)).length = 3 := by decide
    rw [hI, hF, hL, if_neg (by decide)]
    norm_num
  · exact hX.2.1 (by decide)


/-! ### C7: the string hash -/

/-- C7 counterexample: the length-2 strings `"ab"` and `"ac"` differ in
byte 1, which lies below `min(len, 4) = 2`, yet `TShark::StrHash32` maps
them to the same value — for strings of length 2 or 3 only byte 0 is
copied into the hash word, so the hash does not use all of the first
`min(len, 4)` bytes. -/
theorem StrHash32_claim_cex :
    TShark.StrHash32 ("ab".toList) = TShark.StrHash32 ("ac".toList)
      ∧ ("ab".toList).getD 1 ' ' ≠ ("ac".toList).getD 1 ' '
      ∧ 1 < min ("ab".toList).length 4 := by
  refine ⟨by decide, by decide, by decide⟩

/-- C7 (amended): `TShark::StrHash32` combines the first four bytes into
one 32-bit word for strings of length at least four; the empty string
hashes to 0; and for lengths 1–3 only the first byte contributes (the
remaining byte positions of the word stay zero). -/
theorem StrHash32_characterization :
    ∀ s : TString,
      (s.length = 0 → TShark.StrHash32 s = 0)
      ∧ (1 ≤ s.length → s.length < 4 →
          TShark.StrHash32 s = TShark.byteOf (s.getD 0 ' '))
      ∧ (4 ≤ s.length →
          TShark.StrHash32 s =
            TShark.byteOf (s.getD 0 ' ') + 256 * TShark.byteOf (s.getD 1 ' ')
              + 65536 * TShark.byteOf (s.getD 2 ' ')
              + 16777216 * TShark.byteOf (s.getD 3 ' ')) := by
  intro s
  refine ⟨fun h0 => ?_, fun h1 h2 => ?_, fun h4 => ?_⟩
  · unfold TShark.StrHash32
    rw [if_pos (by omega)]
  · unfold TShark.StrHash32
    rw [if_neg (by omega), if_pos (by omega)]
  · unfold TShark.StrHash32
    rw [if_neg (by omega), if_neg (by omega)]

/-- Witness for C7 (amended): the characterization applied to the
concrete strings `"ab"` (length 2: hash is byte 0 = 97) and `"abcd"`
(length 4: all four bytes combined). -/
theorem StrHash32_characterization_witness :
    TShark.StrHash32 ("ab".toList) = 97
      ∧ TShark.StrHash32 ("abcd".toList) = 1684234849 := by
  constructor
  · rw [(StrHash32_characterization ("ab".toList)).2.1 (by decide) (by decide)]
    decide
  · rw [(StrHash32_characterization ("abcd".toList)).2.2 (by decide)]
    decide

/-! ### C5: the custom heapsort (src/misc/traceshark.h:227-302) -/

namespace TShark

def __heap_iParent (i : Nat) : Nat := (i - 1) / 2

def __heap_iLeftChild (i : Nat) : Nat := 2 * i + 1

def __heap_iRightChild (i : Nat) : Nat := 2 * i + 2

/-- `container.swap(i, j)` of the generic container used by
`TShark::heapsort`: exchange the elements at positions `i` and `j`
(out-of-range indices never occur in the algorithm; the model leaves the
container unchanged there so the function is total). -/
def containerSwap {α : Type} (l : List α) (i j : Nat) : List α :=
  if h : i < l.length ∧ j < l.length then
    (l.set i (l.get ⟨j, h.2⟩)).set j (l.get ⟨i, h.1⟩)
  else l

/-- The body of one `__heap_siftdown` iteration
(src/misc/traceshark.h:251-259): choose the index to swap the root with —
the larger of root, left child and (when present) right child under
`compFunc`. -/
def __heap_pick {α : Type} [Inhabited α] (compFunc : α → α → Int)
    (l : List α) (root endi : Nat) : Nat :=
  let child := __heap_iLeftChild root
  let s1 := if compFunc (l.getD root default) (l.getD child default) < 0 then child else root
  let rchild := child + 1
  if rchild ≤ endi ∧ compFunc (l.getD s1 default) (l.getD rchild default) < 0 then rchild
  else s1

/-- The `while` loop of `TShark::__heap_siftdown`
(src/misc/traceshark.h:242-267), with an explicit fuel counter:
`root` strictly increases in every iteration (the swap target is a child),
so `endi + 1 - root` bounds the number of iterations and the fuelled
function computes exactly the C loop. -/
def __heap_siftdown_loop {α : Type} [Inhabited α] (compFunc : α → α → Int) :
    Nat → List α → Nat → Nat → List α
  | 0, l, _, _ => l
  | fuel + 1, l, root, endi =>
    if __heap_iLeftChild root ≤ endi then
      let s := __heap_pick compFunc l root endi
      if s = root then l
      else __heap_siftdown_loop compFunc fuel (containerSwap l root s) s endi
    else l

/-- `TShark::__heap_siftdown` (src/misc/traceshark.h:242-267). -/
def __heap_siftdown {α : Type} [Inhabited α] (compFunc : α → α → Int)
    (l : List α) (start endi : Nat) : List α :=
  __heap_siftdown_loop compFunc (endi + 1 - start) l start endi

/-- The `while (start >= 0)` loop of `TShark::__heap_heapify`
(src/misc/traceshark.h:278-281): `n` iterations remain and the current
`start` is `n - 1`. -/
def __heap_heapify_loop {α : Type} [Inhabited α] (compFunc : α → α → Int) :
    Nat → List α → Nat → List α
  | 0, l, _ => l
  | n + 1, l, endi => __heap_heapify_loop compFunc n (__heap_siftdown compFunc l n endi) endi

/-- `TShark::__heap_heapify` (src/misc/traceshark.h:269-282): sift down at
`start = iParent(count - 1), …, 1, 0` (only reached with `count ≥ 2`). -/
def __heap_heapify {α : Type} [Inhabited α] (compFunc : α → α → Int)
    (l : List α) : List α :=
  __heap_heapify_loop compFunc (__heap_iParent (l.length - 1) + 1) l (l.length - 1)

/-- The `while (end > 0)` loop of `TShark::heapsort`
(src/misc/traceshark.h:296-301): swap the heap head to position `end`,
shrink, and restore the heap property. -/
def heapsort_loop {α : Type} [Inhabited α] (compFunc : α → α → Int) :
    Nat → List α → List α
  | 0, l => l
  | e + 1, l =>
    heapsort_loop compFunc e (__heap_siftdown compFunc (containerSwap l 0 (e + 1)) 0 e)

/-- `TShark::heapsort` (src/misc/traceshark.h:284-302). -/
def heapsort {α : Type} [Inhabited α] (compFunc : α → α → Int)
    (l : List α) : List α :=
  if l.length < 2 then l
  else heapsort_loop compFunc (l.length - 1) (__heap_heapify compFunc l)

theorem containerSwap_perm {α : Type} (l : List α) (i j : Nat) :
    (containerSwap l i j).Perm l := by
  classical
  unfold containerSwap
  split
  case isTrue h =>
    obtain ⟨hi, hj⟩ := h
    rw [List.perm_iff_count]
    intro a
    have hj2 : j < (l.set i (l.get ⟨j, hj⟩)).length := by simpa using hj
    rw [List.count_set _ _ _ _ hj2, List.count_set _ _ _ _ hi]
    simp only [List.get_eq_getElem, List.getElem_set]
    by_cases hij : i = j
    · subst hij
      have hmem : l[i] ∈ l := List.getElem_mem _
      by_cases ha : l[i] = a
      · have : a ∈ l := ha ▸ hmem
        have hcnt := List.count_pos_iff.mpr this
        simp [ha]
        omega
      · simp [ha]
    · rw [if_neg hij]
      have hcnt_i : l[i] = a → 1 ≤ List.count a l := by
        intro hh
        have hmem : l[i] ∈ l := List.getElem_mem _
        exact List.count_pos_iff.mpr (hh ▸ hmem)
      have hcnt_j : l[j] = a → 1 ≤ List.count a l := by
        intro hh
        have hmem : l[j] ∈ l := List.getElem_mem _
        exact List.count_pos_iff.mpr (hh ▸ hmem)
      by_cases h1 : l[i] = a <;> by_cases h2 : l[j] = a
      · have hc := hcnt_i h1
        simp [h1, h2]
        omega
      · have hc := hcnt_i h1
        simp [h1, h2]
        omega
      · have hc := hcnt_j h2
        simp [h1, h2]
      · simp [h1, h2]
  case isFalse h => exact List.Perm.refl l

theorem siftdown_loop_perm {α : Type} [Inhabited α] (compFunc : α → α → Int) :
    ∀ (fuel : Nat) (l : List α) (root endi : Nat),
      (__heap_siftdown_loop compFunc fuel l root endi).Perm l := by
  intro fuel
  induction fuel with
  | zero => intro l root endi; exact List.Perm.refl l
  | succ n ih =>
    intro l root endi
    unfold __heap_siftdown_loop
    split
    · show (if __heap_pick compFunc l root endi = root then l
          else __heap_siftdown_loop compFunc n
            (containerSwap l root (__heap_pick compFunc l root endi))
            (__heap_pick compFunc l root endi) endi).Perm l
      split
      · exact List.Perm.refl l
      · exact (ih _ _ _).trans (containerSwap_perm l root _)
    · exact List.Perm.refl l

theorem siftdown_perm {α : Type} [Inhabited α] (compFunc : α → α → Int)
    (l : List α) (start endi : Nat) :
    (__heap_siftdown compFunc l start endi).Perm l :=
  siftdown_loop_perm compFunc _ l start endi

theorem heapify_loop_perm {α : Type} [Inhabited α] (compFunc : α → α → Int) :
    ∀ (n : Nat) (l : List α) (endi : Nat),
      (__heap_heapify_loop compFunc n l endi).Perm l := by
  intro n
  induction n with
  | zero => intro l endi; exact List.Perm.refl l
  | succ k ih =>
    intro l endi
    unfold __heap_heapify_loop
    exact (ih _ _).trans (siftdown_perm compFunc l k endi)

theorem heapsort_loop_perm {α : Type} [Inhabited α] (compFunc : α → α → Int) :
    ∀ (e : Nat) (l : List α), (heapsort_loop compFunc e l).Perm l := by
  intro e
  induction e with
  | zero => intro l; exact List.Perm.refl l
  | succ k ih =>
    intro l
    unfold heapsort_loop
    exact ((ih _).trans (siftdown_perm compFunc _ 0 k)).trans (containerSwap_perm l 0 (k + 1))

theorem heapsort_perm {α : Type} [Inhabited α] (compFunc : α → α → Int)
    (l : List α) : (heapsort compFunc l).Perm l := by
  unfold heapsort
  split
  · exact List.Perm.refl l
  · exact (heapsort_loop_perm compFunc _ _).trans
      (heapify_loop_perm compFunc _ l _)

end TShark

/-- Comparator on the first components of pairs, used to exhibit equal-key
elements for the stability claim. -/
def cmpFst (a b : Nat × Nat) : Int :=
  if a.1 < b.1 then -1 else if b.1 < a.1 then 1 else 0

/-- The stability property claimed for `TShark::heapsort`: for every
container of (distinguishable) elements and every comparator, elements
that compare equal keep their input order in the sorted output. -/
def heapsortIsStable : Prop :=
  ∀ (cf : Nat × Nat → Nat × Nat → Int) (l : List (Nat × Nat)) (a b : Nat × Nat),
    l.Nodup → a ∈ l → b ∈ l → cf a b = 0 →
    l.indexOf a < l.indexOf b →
    (TShark.heapsort cf l).indexOf a < (TShark.heapsort cf l).indexOf b

/-- C5 counterexample: `TShark::heapsort` is not stable.  On the container
`[(0,0), (0,1)]`, whose two elements compare equal under the key
comparator `cmpFst`, the sort swaps them, so the equal elements do not
retain their input (file) order. -/
theorem heapsort_stable_cex : ¬ heapsortIsStable := by
  intro hst
  have h := hst cmpFst [(0, 0), (0, 1)] (0, 0) (0, 1)
    (by decide) (by decide) (by decide) (by decide) (by decide)
  have heval : TShark.heapsort cmpFst [(0, 0), (0, 1)] = [(0, 1), (0, 0)] := by decide
  rw [heval] at h
  revert h
  decide

/-- C5 (amended): `TShark::heapsort` permutes its container — the output
contains exactly the input elements with their multiplicities, for every
container and comparator — but equal-comparing elements need not retain
their input order (see the counterexample). -/
theorem heapsort_is_perm :
    ∀ {α : Type} [Inhabited α] (compFunc : α → α → Int) (l : List α),
      (TShark.heapsort compFunc l).Perm l := by
  intro α _ compFunc l
  exact TShark.heapsort_perm compFunc l

/-! ### The perf event parsers (src/parser/perf/perfparams.h)

The param-extraction helpers they call live in `parser/paramhelpers.h` and
`parser/perf/helpers.h`, which are not part of the source tree; those are
modelled from the specification ("a small library of `prefix=value` and
`[value]` extractors", §4.3). -/

/-- A tokenized trace event: the argument vector of interned slices.
Only `argv` matters for the parsers embedded here; `argc` is its length. -/
structure TraceEvent where
  argv : List TString

/-- `event.argc` as the C `int`. -/
def TraceEvent.argc (e : TraceEvent) : Int := (e.argv.length : Int)

/-- `event.argv[i]` with a C `int` index.  The parsers only index within
bounds on the argument counts guaranteed by their `…_args_ok` guards; the
model returns the empty string outside. -/
def TraceEvent.arg (e : TraceEvent) (i : Int) : TString :=
  if i < 0 then [] else e.argv.getD i.toNat []

/-- Modelled from the spec: `prefixcmp` of parser/paramhelpers.h (not under
src/) — prefix comparison that returns 0 exactly when `pfix` is a prefix of
`s` (the parsers only test the result against 0). -/
def prefixcmp (s pfix : TString) : Int := if pfix.isPrefixOf s then 0 else 1

/-- The rest of `s` after the last occurrence of `ch` (none when `ch` does
not occur). -/
def afterLastChar : TString → Char → Option TString
  | [], _ => none
  | c :: cs, ch =>
    match afterLastChar cs ch with
    | some r => some r
    | none => if c = ch then some cs else none

/-- The rest of `s` after the first occurrence of `ch`. -/
def afterFirstChar : TString → Char → Option TString
  | [], _ => none
  | c :: cs, ch => if c = ch then some cs else afterFirstChar cs ch

/-- The part of `s` before the last occurrence of `ch`. -/
def beforeLastChar : TString → Char → Option TString
  | [], _ => none
  | c :: cs, ch =>
    match beforeLastChar cs ch with
    | some r => some (c :: r)
    | none => if c = ch then some [] else none

/-- Parse a leading digit run into an accumulator, stopping at the first
non-digit (the values of the traces fit in `int`; the model is exact). -/
def parseUIntFrom : TString → Nat → Nat
  | [], acc => acc
  | c :: cs, acc => if isDigitCh c then parseUIntFrom cs (acc * 10 + digitVal c) else acc

/-- An optionally `'-'`-signed digit run parsed as a C `int` (the traced
values fit; the model is exact). -/
def parseIntTok : TString → Int
  | '-' :: rest => -(parseUIntFrom rest 0 : Int)
  | rest => (parseUIntFrom rest 0 : Int)

/-- Modelled from the spec: `__int_after_char` of parser/paramhelpers.h
(not under src/) — "reads the integer after" the given character: the
(optionally `'-'`-signed) digit run after the last occurrence of `ch`
(task names may themselves contain `ch`, hence the last occurrence);
0 when `ch` does not occur. -/
def __int_after_char (s : TString) (ch : Char) : Int :=
  match afterLastChar s ch with
  | none => 0
  | some rest => parseIntTok rest

/-- Modelled from the spec: `int_after_char` of parser/paramhelpers.h
(not under src/). -/
def int_after_char (e : TraceEvent) (i : Int) (ch : Char) : Int :=
  __int_after_char (e.arg i) ch

/-- The maximal digit run at the end of `s`. -/
def trailingDigits (s : TString) : TString :=
  (s.reverse.takeWhile isDigitCh).reverse

/-- Parse a digit run as C `unsigned int`, wrapping at 32 bits. -/
def parseU32From : TString → Nat → Nat
  | [], acc => acc
  | c :: cs, acc => parseU32From cs ((acc * 10 + digitVal c) % U32)

/-- Modelled from the spec: `uint_after_pfix` of parser/paramhelpers.h
(not under src/) — the unsigned 32-bit value after the known prefix of the
token.  The spec requires the same extraction to serve both `CPU:<N>` and
`target_cpu=<N>` tokens (§4.3: the last wakeup argument is the target cpu
"regardless of old or new"), so it reads the trailing digit run. -/
def uint_after_pfix (e : TraceEvent) (i : Int) (_pfix : TString) : Nat :=
  parseU32From (trailingDigits (e.arg i)) 0

/-- Modelled from the spec (§6, recognized argument prefixes). -/
def IDLE_STATE_PFIX : TString := "state=".toList

/-- Modelled from the spec (§6, recognized argument prefixes). -/
def IDLE_CPUID_PFIX : TString := "cpu_id=".toList

/-- Modelled from the spec (§6, recognized argument prefixes). -/
def SWITCH_PSTA_PFIX : TString := "prev_state=".toList

/-- Modelled from the spec (§4.3, sched_switch regular format). -/
def SWITCH_PPID_PFIX : TString := "prev_pid=".toList

/-- Modelled from the spec (§4.3, sched_switch regular format). -/
def SWITCH_NPID_PFIX : TString := "next_pid=".toList

/-- Modelled from the spec (§6, recognized argument prefixes). -/
def WAKE_CPU_PFIX : TString := "CPU:".toList

/-- Modelled from the spec (§6, recognized argument prefixes). -/
def WAKE_TCPU_PFIX : TString := "target_cpu=".toList

/-- Modelled from the spec (§6, recognized argument prefixes). -/
def WAKE_PID_PFIX : TString := "pid=".toList

/-- Modelled from the spec (§4.3, sched_process_fork). -/
def CHILD_PID_PFIX : TString := "child_pid=".toList

/-- Modelled from the spec: the failure sentinel of misc/errors.h (not
under src/) returned when a parser cannot find its argument. -/
def ABSURD_INT : Int := -2147483648

/-- Modelled from the spec: a task state is a recognized state character
with an optional `'+'` (preempted-runnable) flag; `none` is the parser
error sentinel `TASK_STATE_PARSER_ERROR` (§4.3). -/
abbrev taskstate_t := Option (Char × Bool)

/-- Modelled from the spec: the parser-error sentinel for task states. -/
def TASK_STATE_PARSER_ERROR : taskstate_t := none

/-- Modelled from the spec: the recognized state characters (§4.3). -/
def schedStateChars : List Char := ['R', 'S', 'D', 'T', 't', 'X', 'Z', 'I']

/-- Modelled from the spec: `sched_state_from_tstring_` of
parser/perf/helpers.h (not under src/) — map a one- or two-character state
string to the task state, `'+'` marking preempted-runnable; unknown
strings give the parser-error sentinel. -/
def sched_state_from_tstring_ (s : TString) : taskstate_t :=
  match s with
  | [c] => if c ∈ schedStateChars then some (c, false) else none
  | [c, '+'] => if c ∈ schedStateChars then some (c, true) else none
  | _ => none

/-- The parse handle filled by `perf_sched_switch_parse`: the style flag
and the index of the `==>` arrow token. -/
structure sched_switch_handle where
  is_distro_style : Bool
  index : Int

/-- The inner `for (j = t->len - 2; j > 0; j--)` loop of
`perf_sched_switch_handle_state` (src/parser/perf/perfparams.h:129-136):
find the last `'='` at a position in `[1, len-2]` and return the rest of
the token after it. -/
def jScanForEq (t : TString) : Nat → Option TString
  | 0 => none
  | j + 1 => if t.getD (j + 1) ' ' = '=' then some (t.drop (j + 2)) else jScanForEq t j

/-- `stateAfterEq t = jScanForEq t (t.length - 2)`, the state fragment of a
`prev_state=…` token. -/
def stateAfterEq (t : TString) : Option TString := jScanForEq t (t.length - 2)

/-- The outer `for (; i >= 0; i--)` loop of the regular-format branch of
`perf_sched_switch_handle_state` (src/parser/perf/perfparams.h:126-137):
`k` arguments with indices `0 … k-1` remain to be scanned, highest first;
an argument with the `prev_state=` prefix but no inner `'='` lets the
outer loop continue, as in the source. -/
def regularStateScan (e : TraceEvent) : Nat → taskstate_t
  | 0 => TASK_STATE_PARSER_ERROR
  | k + 1 =>
    let t := e.argv.getD k []
    if prefixcmp t SWITCH_PSTA_PFIX = 0 then
      match stateAfterEq t with
      | some st => sched_state_from_tstring_ st
      | none => regularStateScan e k
    else regularStateScan e k

/-- `perf_sched_switch_handle_state` (src/parser/perf/perfparams.h:113-147). -/
def perf_sched_switch_handle_state (e : TraceEvent)
    (handle : sched_switch_handle) : taskstate_t :=
  let i : Int := handle.index - 1
  if handle.is_distro_style then
    let stateArgStr := e.arg i
    if stateArgStr.length = 1 ∨ stateArgStr.length = 2 then
      sched_state_from_tstring_ stateArgStr
    else TASK_STATE_PARSER_ERROR
  else
    if i < 0 then TASK_STATE_PARSER_ERROR
    else regularStateScan e (i.toNat + 1)

/-- Backward search for a `pfix`-prefixed argument among indices
`k-1 … 0` (highest first), reading the integer after its `'='`. -/
def pidScanDown (e : TraceEvent) (pfix : TString) : Nat → Int
  | 0 => ABSURD_INT
  | k + 1 =>
    if prefixcmp (e.argv.getD k []) pfix = 0 then __int_after_char (e.argv.getD k []) '='
    else pidScanDown e pfix k

/-- Modelled from the spec:
`perf_sched_switch_handle_oldpid_newformat_` of parser/perf/helpers.h (not
under src/) — in regular style the old pid is "the integer after `=` in
the `prev_pid=` token", searched before the arrow. -/
def perf_sched_switch_handle_oldpid_newformat_ (e : TraceEvent)
    (handle : sched_switch_handle) : Int :=
  if handle.index < 0 then ABSURD_INT
  else pidScanDown e SWITCH_PPID_PFIX handle.index.toNat

/-- Modelled from the spec:
`perf_sched_switch_handle_newpid_newformat_` of parser/perf/helpers.h (not
under src/) — the new pid is the integer after `=` in the `next_pid=`
token ("symmetric, using the second-to-last argument"), searched from the
tail. -/
def perf_sched_switch_handle_newpid_newformat_ (e : TraceEvent)
    (_handle : sched_switch_handle) : Int :=
  pidScanDown e SWITCH_NPID_PFIX e.argv.length

/-- `perf_sched_switch_handle_oldpid` (src/parser/perf/perfparams.h:149-163). -/
def perf_sched_switch_handle_oldpid (e : TraceEvent)
    (handle : sched_switch_handle) : Int :=
  if handle.is_distro_style then int_after_char e (handle.index - 3) ':'
  else perf_sched_switch_handle_oldpid_newformat_ e handle

/-- `perf_sched_switch_handle_newpid` (src/parser/perf/perfparams.h:165-179). -/
def perf_sched_switch_handle_newpid (e : TraceEvent)
    (handle : sched_switch_handle) : Int :=
  if handle.is_distro_style then int_after_char e (e.argc - 2) ':'
  else perf_sched_switch_handle_newpid_newformat_ e handle

/-- Modelled from the spec: `is_param_inside_braces` of
parser/paramhelpers.h (not under src/) — a `[value]` token. -/
def is_param_inside_braces (t : TString) : Bool :=
  (t.headD ' ' == '[') && (t.getLastD ' ' == ']')

/-- Modelled from the spec: `is_param_inside_braces_or_cant` of
parser/paramhelpers.h (not under src/) — a bracketed priority or the
glued `[PRIO]<CANT` token of the old-libtraceevent format; both begin
with `'['`. -/
def is_param_inside_braces_or_cant (t : TString) : Bool :=
  t.headD ' ' == '['

/-- The `for (idx = argc-2; idx >= 1; idx--)` walk of
`perf_sched_wakeup_pid` (src/parser/perf/perfparams.h:440-446): starting
at index `k`, return `found - 1` for the first index whose argument is a
bracketed priority (or CANT marker), and 0 when the walk reaches index 0
without a hit — exactly the post-loop value of `idx` in the source. -/
def wakeupPidScanNew (e : TraceEvent) : Nat → Nat
  | 0 => 0
  | k + 1 =>
    if is_param_inside_braces_or_cant (e.argv.getD (k + 1) []) then k
    else wakeupPidScanNew e k

/-- The `for (idx = argc-3; idx >= 0; idx--)` walk of
`perf_sched_wakeup_pid` (src/parser/perf/perfparams.h:450-454): the first
index `≤ k` (highest first) whose argument has the `pid=` prefix. -/
def wakeupPidScanOld (e : TraceEvent) : Nat → Option Nat
  | 0 => if prefixcmp (e.argv.getD 0 []) WAKE_PID_PFIX = 0 then some 0 else none
  | k + 1 =>
    if prefixcmp (e.argv.getD (k + 1) []) WAKE_PID_PFIX = 0 then some (k + 1)
    else wakeupPidScanOld e (k)

/-- `perf_sched_wakeup_pid` (src/parser/perf/perfparams.h:433-472);
`lastidx = argc - 1` is inlined. -/
def perf_sched_wakeup_pid (e : TraceEvent) : Int :=
  if prefixcmp (e.arg (e.argc - 1)) WAKE_CPU_PFIX = 0 then
    int_after_char e (wakeupPidScanNew e (e.argv.length - 2) : Int) ':'
  else if prefixcmp (e.arg (e.argc - 1)) WAKE_TCPU_PFIX = 0 then
    match wakeupPidScanOld e (e.argv.length - 3) with
    | some i => int_after_char e (i : Int) '='
    | none =>
      if prefixcmp (e.arg (e.argc - 2)) WAKE_PID_PFIX = 0 then
        int_after_char e (e.argc - 2) '='
      else ABSURD_INT
  else ABSURD_INT

/-- `perf_sched_wakeup_cpu` (src/parser/perf/perfparams.h:366-367):
`uint_after_pfix(EVENT, EVENT.argc - 1, WAKE_TCPU_PFIX)`. -/
def perf_sched_wakeup_cpu (e : TraceEvent) : Nat :=
  uint_after_pfix e (e.argc - 1) WAKE_TCPU_PFIX

/-- Reinterpretation of a 32-bit unsigned value as a signed one, the
`state = *((int*) &ustate)` cast of `perf_cpuidle_state`
(src/parser/perf/perfparams.h:79): two's complement. -/
def u32AsI32 (u : Nat) : Int :=
  if u < 2147483648 then (u : Int) else (u : Int) - 4294967296

/-- `perf_cpuidle_state` (src/parser/perf/perfparams.h:72-82). -/
def perf_cpuidle_state (e : TraceEvent) : Int :=
  u32AsI32 (uint_after_pfix e 0 IDLE_STATE_PFIX)

/-- The `for (i = endidx - 1; i > 0; i--)` loop of
`perf_sched_process_fork_childpid` (src/parser/perf/perfparams.h:564-567):
the first index in `k … 1` (highest first) whose argument has the
`child_pid=` prefix; 0 when the loop runs out (the loop never tests
index 0). -/
def forkChildScan (e : TraceEvent) : Nat → Nat
  | 0 => 0
  | k + 1 =>
    if prefixcmp (e.argv.getD (k + 1) []) CHILD_PID_PFIX = 0 then k + 1
    else forkChildScan e k

/-- `perf_sched_process_fork_childpid`
(src/parser/perf/perfparams.h:555-572).  Note the source's post-loop guard
`if (i < 0) return ABSURD_INT;` can never fire: the loop condition is
`i > 0`, so `i` is 0 after an unsuccessful search and the function parses
`argv[0]` whether or not it carries the `child_pid=` prefix. -/
def perf_sched_process_fork_childpid (e : TraceEvent) : Int :=
  let endidx := e.argv.length - 1
  if prefixcmp (e.argv.getD endidx []) CHILD_PID_PFIX = 0 then
    int_after_char e (endidx : Int) '='
  else
    int_after_char e (forkChildScan e (endidx - 1) : Int) '='

/-! ### C2, C8, C6: concrete parser facts -/

/-- The S3 argument list `X:5 [120] S ==> bash:42 [120]` of the
specification, as tokenized. -/
def eS3 : TraceEvent :=
  ⟨["X:5".toList, "[120]".toList, "S".toList, "==>".toList,
    "bash:42".toList, "[120]".toList]⟩

/-- The parse handle for `eS3`: distribution style, arrow at index 3. -/
def hS3 : sched_switch_handle := ⟨true, 3⟩

/-- C2: for every sched_switch event parsed in distribution style with the
arrow at index i, the old pid is the integer after `':'` in the argument at
index i - 3 and the new pid is the integer after `':'` in the argument at
index argc - 2; on the S3 argument list `X:5 [120] S ==> bash:42 [120]`
this gives oldpid = 5, newpid = 42, and the one-character state token
before the arrow maps to state `S`. -/
theorem sched_switch_distro_pids :
    ∀ (e : TraceEvent) (handle : sched_switch_handle),
      handle.is_distro_style = true →
      (perf_sched_switch_handle_oldpid e handle
          = __int_after_char (e.arg (handle.index - 3)) ':'
        ∧ perf_sched_switch_handle_newpid e handle
          = __int_after_char (e.arg (e.argc - 2)) ':')
      ∧ (perf_sched_switch_handle_oldpid eS3 hS3 = 5
        ∧ perf_sched_switch_handle_newpid eS3 hS3 = 42
        ∧ perf_sched_switch_handle_state eS3 hS3 = some ('S', false)) := by
  intro e handle hd
  refine ⟨⟨?_, ?_⟩, by decide, by decide, by decide⟩
  · unfold perf_sched_switch_handle_oldpid int_after_char
    rw [if_pos hd]
  · unfold perf_sched_switch_handle_newpid int_after_char
    rw [if_pos hd]

/-- Witness for C2: the theorem applied to the concrete S3 event. -/
theorem sched_switch_distro_pids_witness :
    perf_sched_switch_handle_oldpid eS3 hS3
        = __int_after_char (eS3.arg (hS3.index - 3)) ':'
      ∧ perf_sched_switch_handle_oldpid eS3 hS3 = 5
      ∧ perf_sched_switch_handle_state eS3 hS3 = some ('S', false) := by
  have h := sched_switch_distro_pids eS3 hS3 rfl
  exact ⟨h.1.1, h.2.1, h.2.2.2⟩

theorem parseU32From_lt (s : TString) :
    ∀ acc, acc < U32 → parseU32From s acc < U32 := by
  induction s with
  | nil => intro acc h; exact h
  | cons c cs ih =>
    intro acc h
    unfold parseU32From
    exact ih _ (Nat.mod_lt _ (by norm_num [U32]))

/-- The `cpu_idle` event of the claim: `state=4294967295 cpu_id=0`. -/
def idleEv : TraceEvent := ⟨["state=4294967295".toList, "cpu_id=0".toList]⟩

/-- C8: `perf_cpuidle_state` parses the idle-state argument as an unsigned
32-bit integer and returns its two's-complement signed reinterpretation:
the parsed value is always below 2^32, values below 2^31 are returned
as-is, values at or above 2^31 are returned minus 2^32; in particular the
parsed value 4294967295 is returned as -1 (exit from idle). -/
theorem cpuidle_state_signed :
    (∀ e : TraceEvent,
        uint_after_pfix e 0 IDLE_STATE_PFIX < U32
        ∧ (uint_after_pfix e 0 IDLE_STATE_PFIX < 2147483648 →
            perf_cpuidle_state e = (uint_after_pfix e 0 IDLE_STATE_PFIX : Int))
        ∧ (2147483648 ≤ uint_after_pfix e 0 IDLE_STATE_PFIX →
            perf_cpuidle_state e
              = (uint_after_pfix e 0 IDLE_STATE_PFIX : Int) - 4294967296))
      ∧ uint_after_pfix idleEv 0 IDLE_STATE_PFIX = 4294967295
      ∧ perf_cpuidle_state idleEv = -1 := by
  refine ⟨fun e => ⟨?_, fun h => ?_, fun h => ?_⟩, by decide, by decide⟩
  · exact parseU32From_lt _ 0 (by norm_num [U32])
  · unfold perf_cpuidle_state u32AsI32
    rw [if_pos h]
  · unfold perf_cpuidle_state u32AsI32
    rw [if_neg (by omega)]

/-- Witness for C8: the signed-reinterpretation branch applied to the
concrete event with parsed unsigned value 4294967295. -/
theorem cpuidle_state_signed_witness :
    perf_cpuidle_state idleEv
      = (uint_after_pfix idleEv 0 IDLE_STATE_PFIX : Int) - 4294967296 := by
  exact (cpuidle_state_signed.1 idleEv).2.2 (by decide)

/-- A sched_process_fork argument list with no `child_pid=` argument:
`x=99 pid=1 child_comm=bar prio=3`. -/
def forkEv : TraceEvent :=
  ⟨["x=99".toList, "pid=1".toList, "child_comm=bar".toList, "prio=3".toList]⟩

/-- C6 (code-bug evidence): on an event none of whose arguments carries the
`child_pid=` prefix, `perf_sched_process_fork_childpid` does not return the
`ABSURD_INT` failure sentinel — the dead guard `if (i < 0)` never fires
because the search loop stops at `i = 0` — but parses the unrelated
argument `argv[0] = "x=99"` and returns 99. -/
theorem fork_childpid_bug_eval :
    perf_sched_process_fork_childpid forkEv = 99
      ∧ (∀ t ∈ forkEv.argv, prefixcmp t CHILD_PID_PFIX ≠ 0)
      ∧ (99 : Int) ≠ ABSURD_INT := by
  refine ⟨by decide, by decide, by decide⟩

/-! ### C3: the two wakeup formats are equivalent -/

/-- A wakeup event in the libtraceevent format
`<PNAME>:<PID> [<PRIO>] CPU:<CPU>`, with the name, pid digits, prio digits
and cpu digits as parameters. -/
def wakeupEvNew (name pd pr cd : TString) : TraceEvent :=
  ⟨[name ++ ':' :: pd, '[' :: (pr ++ [']']), "CPU:".toList ++ cd]⟩

/-- The same wakeup in the classic format
`comm=<PNAME> pid=<PID> prio=<PRIO> success=1 target_cpu=<CPU>`. -/
def wakeupEvOld (name pd pr cd : TString) : TraceEvent :=
  ⟨["comm=".toList ++ name, "pid=".toList ++ pd, "prio=".toList ++ pr,
    "success=1".toList, "target_cpu=".toList ++ cd]⟩

theorem isPrefixOf_self_append (p t : TString) : p.isPrefixOf (p ++ t) = true := by
  induction p with
  | nil => simp [List.isPrefixOf]
  | cons c cs ih => simp [List.isPrefixOf, ih]

theorem afterLastChar_none (ys : TString) (ch : Char) (h : ch ∉ ys) :
    afterLastChar ys ch = none := by
  induction ys with
  | nil => rfl
  | cons c cs ih =>
    have hc : c ≠ ch := fun he => h (he ▸ List.mem_cons_self c cs)
    have hcs : ch ∉ cs := fun hm => h (List.mem_cons_of_mem c hm)
    unfold afterLastChar
    rw [ih hcs]
    simp [hc]

theorem afterLastChar_append (xs ys : TString) (ch : Char) (h : ch ∉ ys) :
    afterLastChar (xs ++ ch :: ys) ch = some ys := by
  induction xs with
  | nil =>
    rw [List.nil_append]
    simp only [afterLastChar]
    rw [afterLastChar_none ys ch h]
    simp
  | cons x xs ih =>
    rw [List.cons_append]
    simp only [afterLastChar]
    rw [ih]

theorem takeWhile_append_headFalse (A B : List Char)
    (hB : ∀ b, B.headD ' ' = b → B ≠ [] → isDigitCh b = false) :
    (A ++ B).takeWhile isDigitCh = A.takeWhile isDigitCh := by
  induction A with
  | nil =>
    cases B with
    | nil => simp
    | cons b bs =>
      simp only [List.nil_append, List.takeWhile]
      rw [hB b rfl (by simp)]
  | cons a A' ih =>
    by_cases ha : isDigitCh a = true
    · simp [List.takeWhile, ha, ih]
    · simp [List.takeWhile, ha]

theorem trailingDigits_append (xs ys : TString)
    (hx : isDigitCh ((xs.reverse).headD ' ') = false) :
    trailingDigits (xs ++ ys) = trailingDigits ys := by
  unfold trailingDigits
  rw [List.reverse_append]
  rw [takeWhile_append_headFalse _ _ (fun b hb _ => hb ▸ hx)]

theorem arg_eval (l : List TString) (i : Nat) :
    TraceEvent.arg ⟨l⟩ (i : Int) = l.getD i [] := by
  unfold TraceEvent.arg
  rw [if_neg (by omega)]
  simp

theorem wakeupEvNew_pid (name pd pr cd : TString) (hpdc : ':' ∉ pd) :
    perf_sched_wakeup_pid (wakeupEvNew name pd pr cd) = parseIntTok pd := by
  unfold perf_sched_wakeup_pid
  have hargc : (wakeupEvNew name pd pr cd).argc = 3 := by
    simp [TraceEvent.argc, wakeupEvNew]
  have hlen : (wakeupEvNew name pd pr cd).argv.length = 3 := by
    simp [wakeupEvNew]
  rw [hargc, hlen]
  have harg2 : (wakeupEvNew name pd pr cd).arg (3 - 1) = "CPU:".toList ++ cd := by
    rw [show ((3 : Int) - 1) = ((2 : Nat) : Int) by norm_num]
    rw [show wakeupEvNew name pd pr cd
        = ⟨(wakeupEvNew name pd pr cd).argv⟩ from rfl, arg_eval]
    simp [wakeupEvNew]
  rw [harg2]
  rw [if_pos (by
    unfold prefixcmp WAKE_CPU_PFIX
    rw [if_pos (isPrefixOf_self_append _ _)])]
  have hscan : wakeupPidScanNew (wakeupEvNew name pd pr cd) (3 - 2) = 0 := by
    show wakeupPidScanNew (wakeupEvNew name pd pr cd) 1 = 0
    unfold wakeupPidScanNew
    rw [if_pos (by
      simp [wakeupEvNew, is_param_inside_braces_or_cant, List.getD])]
  rw [hscan]
  show int_after_char (wakeupEvNew name pd pr cd) ((0 : Nat) : Int) ':' = _
  unfold int_after_char
  rw [show wakeupEvNew name pd pr cd
      = ⟨(wakeupEvNew name pd pr cd).argv⟩ from rfl, arg_eval]
  have harg0 : (wakeupEvNew name pd pr cd).argv.getD 0 [] = name ++ ':' :: pd := by
    simp [wakeupEvNew]
  rw [harg0]
  unfold __int_after_char
  rw [afterLastChar_append name pd ':' hpdc]

theorem isPrefixOf_cons_ne {a b : Char} (as bs : List Char) (h : (a == b) = false) :
    List.isPrefixOf (a :: as) (b :: bs) = false := by
  simp only [List.isPrefixOf, h, Bool.false_and]

theorem isPrefixOf_cons_same (a : Char) (as bs : List Char) :
    List.isPrefixOf (a :: as) (a :: bs) = List.isPrefixOf as bs := by
  simp [List.isPrefixOf]

theorem wakeupEvOld_pid (name pd pr cd : TString) (hpde : '=' ∉ pd) :
    perf_sched_wakeup_pid (wakeupEvOld name pd pr cd) = parseIntTok pd := by
  unfold perf_sched_wakeup_pid
  have hargc : (wakeupEvOld name pd pr cd).argc = 5 := by
    simp [TraceEvent.argc, wakeupEvOld]
  have hlen : (wakeupEvOld name pd pr cd).argv.length = 5 := by
    simp [wakeupEvOld]
  rw [hargc, hlen]
  have harg4 : (wakeupEvOld name pd pr cd).arg (5 - 1) = "target_cpu=".toList ++ cd := by
    rw [show ((5 : Int) - 1) = ((4 : Nat) : Int) by norm_num]
    rw [show wakeupEvOld name pd pr cd
        = ⟨(wakeupEvOld name pd pr cd).argv⟩ from rfl, arg_eval]
    simp [wakeupEvOld]
  rw [harg4]
  rw [if_neg (by
    unfold prefixcmp WAKE_CPU_PFIX
    rw [if_neg (by
      rw [show "target_cpu=".toList ++ cd = 't' :: ("arget_cpu=".toList ++ cd) from rfl]
      rw [show "CPU:".toList = 'C' :: "PU:".toList from rfl]
      rw [isPrefixOf_cons_ne _ _ (by decide)]
      simp)]
    norm_num)]
  rw [if_pos (by
    unfold prefixcmp WAKE_TCPU_PFIX
    rw [if_pos (isPrefixOf_self_append _ _)])]
  have hscan : wakeupPidScanOld (wakeupEvOld name pd pr cd) (5 - 3) = some 1 := by
    show wakeupPidScanOld (wakeupEvOld name pd pr cd) 2 = some 1
    unfold wakeupPidScanOld
    rw [if_neg (by
      have hg : (wakeupEvOld name pd pr cd).argv.getD 2 [] = "prio=".toList ++ pr := by
        simp [wakeupEvOld]
      rw [hg]
      unfold prefixcmp WAKE_PID_PFIX
      rw [if_neg (by
        rw [show "prio=".toList ++ pr = 'p' :: 'r' :: ("io=".toList ++ pr) from rfl]
        rw [show "pid=".toList = 'p' :: 'i' :: "d=".toList from rfl]
        rw [isPrefixOf_cons_same, isPrefixOf_cons_ne _ _ (by decide)]
        simp)]
      norm_num)]
    unfold wakeupPidScanOld
    rw [if_pos (by
      have hg : (wakeupEvOld name pd pr cd).argv.getD 1 [] = "pid=".toList ++ pd := by
        simp [wakeupEvOld]
      rw [hg]
      unfold prefixcmp WAKE_PID_PFIX
      rw [if_pos (isPrefixOf_self_append _ _)])]
  rw [hscan]
  show __int_after_char ((wakeupEvOld name pd pr cd).arg ((1 : Nat) : Int)) '='
      = parseIntTok pd
  rw [show wakeupEvOld name pd pr cd
      = ⟨(wakeupEvOld name pd pr cd).argv⟩ from rfl, arg_eval]
  have harg1 : (wakeupEvOld name pd pr cd).argv.getD 1 [] = "pid=".toList ++ pd := by
    simp [wakeupEvOld]
  rw [harg1]
  unfold __int_after_char
  rw [show "pid=".toList ++ pd = ['p', 'i', 'd'] ++ '=' :: pd from rfl]
  rw [afterLastChar_append _ pd '=' hpde]

theorem wakeupEvNew_cpu (name pd pr cd : TString) :
    perf_sched_wakeup_cpu (wakeupEvNew name pd pr cd)
      = parseU32From (trailingDigits cd) 0 := by
  unfold perf_sched_wakeup_cpu uint_after_pfix
  have hargc : (wakeupEvNew name pd pr cd).argc = 3 := by
    simp [TraceEvent.argc, wakeupEvNew]
  rw [hargc]
  have harg2 : (wakeupEvNew name pd pr cd).arg (3 - 1) = "CPU:".toList ++ cd := by
    rw [show ((3 : Int) - 1) = ((2 : Nat) : Int) by norm_num]
    rw [show wakeupEvNew name pd pr cd
        = ⟨(wakeupEvNew name pd pr cd).argv⟩ from rfl, arg_eval]
    simp [wakeupEvNew]
  rw [harg2, trailingDigits_append _ _ (by decide)]

theorem wakeupEvOld_cpu (name pd pr cd : TString) :
    perf_sched_wakeup_cpu (wakeupEvOld name pd pr cd)
      = parseU32From (trailingDigits cd) 0 := by
  unfold perf_sched_wakeup_cpu uint_after_pfix
  have hargc : (wakeupEvOld name pd pr cd).argc = 5 := by
    simp [TraceEvent.argc, wakeupEvOld]
  rw [hargc]
  have harg4 : (wakeupEvOld name pd pr cd).arg (5 - 1) = "target_cpu=".toList ++ cd := by
    rw [show ((5 : Int) - 1) = ((4 : Nat) : Int) by norm_num]
    rw [show wakeupEvOld name pd pr cd
        = ⟨(wakeupEvOld name pd pr cd).argv⟩ from rfl, arg_eval]
    simp [wakeupEvOld]
  rw [harg4, trailingDigits_append _ _ (by decide)]

/-- C3: the two tolerated wakeup formats are parsed to identical results.
For every task name and digit strings for pid, prio and cpu, the
libtraceevent argument list `NAME:PID [PRIO] CPU:CPU` and the classic
argument list `comm=NAME pid=PID prio=PRIO success=1 target_cpu=CPU` give
the same `perf_sched_wakeup_pid` and the same `perf_sched_wakeup_cpu`
(the pid digit run must not itself contain the separators `':'`/`'='`);
on the S4 instance both formats yield pid = 42 and cpu = 3. -/
theorem wakeup_formats_equivalent :
    (∀ name pd pr cd : TString, ':' ∉ pd → '=' ∉ pd →
        perf_sched_wakeup_pid (wakeupEvNew name pd pr cd)
            = perf_sched_wakeup_pid (wakeupEvOld name pd pr cd)
          ∧ perf_sched_wakeup_cpu (wakeupEvNew name pd pr cd)
            = perf_sched_wakeup_cpu (wakeupEvOld name pd pr cd))
      ∧ perf_sched_wakeup_pid
          (wakeupEvNew "bash".toList "42".toList "120".toList "3".toList) = 42
      ∧ perf_sched_wakeup_pid
          (wakeupEvOld "bash".toList "42".toList "120".toList "3".toList) = 42
      ∧ perf_sched_wakeup_cpu
          (wakeupEvNew "bash".toList "42".toList "120".toList "3".toList) = 3
      ∧ perf_sched_wakeup_cpu
          (wakeupEvOld "bash".toList "42".toList "120".toList "3".toList) = 3 := by
  refine ⟨fun name pd pr cd hc he => ⟨?_, ?_⟩, by decide, by decide, by decide, by decide⟩
  · rw [wakeupEvNew_pid name pd pr cd hc, wakeupEvOld_pid name pd pr cd he]
  · rw [wakeupEvNew_cpu, wakeupEvOld_cpu]

/-- Witness for C3: the equivalence applied to the S4 task
(`bash`, pid 42, prio 120, cpu 3). -/
theorem wakeup_formats_equivalent_witness :
    perf_sched_wakeup_pid
        (wakeupEvNew "bash".toList "42".toList "120".toList "3".toList)
      = perf_sched_wakeup_pid
          (wakeupEvOld "bash".toList "42".toList "120".toList "3".toList)
    ∧ perf_sched_wakeup_cpu
        (wakeupEvNew "bash".toList "42".toList "120".toList "3".toList)
      = perf_sched_wakeup_cpu
          (wakeupEvOld "bash".toList "42".toList "120".toList "3".toList) :=
  wakeup_formats_equivalent.1 "bash".toList "42".toList "120".toList "3".toList
    (by decide) (by decide)

/-! ### C4: task-name reconstruction is bounded by TASKNAME_MAXLEN -/

/-- Modelled from the spec: the hard task-name limit (16 bytes) of
analyzer/task.h, which is not under src/ (§6: "maximum task-name length =
16 bytes (with overflow = line-skipped)"). -/
def TASKNAME_MAXLEN : Nat := 16

/-- Append a fragment to the scratch name buffer, separated by a space
when the buffer is non-empty (the spec's reconstruction "merges all
argument tokens", which the tokenizer split at spaces). -/
def tn_append (acc frag : TString) : TString :=
  if acc.isEmpty then frag else acc ++ ' ' :: frag

/-- The bounded append of the copy helpers: fail when the name would
exceed `TASKNAME_MAXLEN`. -/
def tn_appendB (acc frag : TString) : Option TString :=
  if (tn_append acc frag).length ≤ TASKNAME_MAXLEN then some (tn_append acc frag)
  else none

/-- Modelled from the spec: `copy_tstring_after_char_` of
parser/paramhelpers.h (not under src/) — append the fragment of `t` after
its first `ch` (the `=` of a `key=value` token), failing when `ch` is
absent or the buffer would overflow. -/
def copy_tstring_after_char_ (t : TString) (ch : Char) (acc : TString) : Option TString :=
  match afterFirstChar t ch with
  | none => none
  | some frag => tn_appendB acc frag

/-- Modelled from the spec: `copy_tstring_before_char_` of
parser/paramhelpers.h (not under src/) — append the part of `t` before
its last `ch` (the `:` of a `NAME:PID` token; the name may contain `:`),
failing when `ch` is absent or the buffer would overflow. -/
def copy_tstring_before_char_ (t : TString) (ch : Char) (acc : TString) : Option TString :=
  match beforeLastChar t ch with
  | none => none
  | some frag => tn_appendB acc frag

/-- The C `for (i = beginidx; i <= endidx; i++)` index range (empty when
`endidx < beginidx`). -/
def intRange (b e : Int) : List Int :=
  (List.range (e + 1 - b).toNat).map (fun k => b + k)

/-- Modelled from the spec: `merge_args_into_cstring` of
parser/paramhelpers.h (not under src/) — append the arguments
`beginidx … endidx` to the scratch buffer, failing on overflow. -/
def merge_args_into_cstring (e : TraceEvent) (beginidx endidx : Int)
    (acc : TString) : Option TString :=
  (intRange beginidx endidx).foldl
    (fun oacc i => oacc.bind (fun a => tn_appendB a (e.arg i))) (some acc)

/-- Modelled from the spec: the `_nullterminate` variant writes the final
NUL into the scratch buffer, which does not change the name content. -/
def merge_args_into_cstring_nullterminate (e : TraceEvent) (beginidx endidx : Int)
    (acc : TString) : Option TString :=
  merge_args_into_cstring e beginidx endidx acc

/-- Modelled from the spec: `StringPool::allocString` interns the name and
returns a stable reference to equal bytes; pool exhaustion (the source's
`nullptr` path) is not modelled. -/
def allocStringModel (s : TString) : Option TString := some s

/-- `perf_sched_switch_handle_newname_strdup_`
(src/parser/perf/perfparams.h:216-274); `NullStr` is `none`. -/
def perf_sched_switch_handle_newname_strdup_ (e : TraceEvent)
    (handle : sched_switch_handle) : Option TString :=
  if handle.is_distro_style = false then
    ((copy_tstring_after_char_ (e.arg (handle.index + 1)) '=' []).bind
      (merge_args_into_cstring_nullterminate e (handle.index + 2) (e.argc - 3))).bind
      allocStringModel
  else
    ((merge_args_into_cstring e (handle.index + 1) (e.argc - 3) []).bind
      (copy_tstring_before_char_ (e.arg (e.argc - 2)) ':')).bind
      allocStringModel

/-- `perf_sched_switch_handle_oldname_strdup_`
(src/parser/perf/perfparams.h:281-340). -/
def perf_sched_switch_handle_oldname_strdup_ (e : TraceEvent)
    (handle : sched_switch_handle) : Option TString :=
  if handle.is_distro_style = false then
    ((copy_tstring_after_char_ (e.arg 0) '=' []).bind
      (merge_args_into_cstring_nullterminate e 1 (handle.index - 4))).bind
      allocStringModel
  else
    ((merge_args_into_cstring e 0 (handle.index - 4) []).bind
      (copy_tstring_before_char_ (e.arg (handle.index - 3)) ':')).bind
      allocStringModel

/-- Unbounded variant of `copy_tstring_after_char_`: the fragment append
without the length check (still failing when `ch` is absent). -/
def copyAfterU (t : TString) (ch : Char) (acc : TString) : Option TString :=
  (afterFirstChar t ch).bind (fun frag => some (tn_append acc frag))

/-- Unbounded variant of `copy_tstring_before_char_`. -/
def copyBeforeU (t : TString) (ch : Char) (acc : TString) : Option TString :=
  (beforeLastChar t ch).bind (fun frag => some (tn_append acc frag))

/-- Unbounded variant of `merge_args_into_cstring`. -/
def mergeU (e : TraceEvent) (beginidx endidx : Int) (acc : TString) : TString :=
  (intRange beginidx endidx).foldl (fun a i => tn_append a (e.arg i)) acc

/-- The new task name that `perf_sched_switch_handle_newname_strdup_`
reconstructs, without the length bound: merged from the same argument
fragments. -/
def sched_switch_newname_recon (e : TraceEvent)
    (handle : sched_switch_handle) : Option TString :=
  if handle.is_distro_style = false then
    (copyAfterU (e.arg (handle.index + 1)) '=' []).bind
      (fun a => some (mergeU e (handle.index + 2) (e.argc - 3) a))
  else
    (some (mergeU e (handle.index + 1) (e.argc - 3) [])).bind
      (copyBeforeU (e.arg (e.argc - 2)) ':')

/-- The old task name reconstructed by
`perf_sched_switch_handle_oldname_strdup_`, without the length bound. -/
def sched_switch_oldname_recon (e : TraceEvent)
    (handle : sched_switch_handle) : Option TString :=
  if handle.is_distro_style = false then
    (copyAfterU (e.arg 0) '=' []).bind
      (fun a => some (mergeU e 1 (handle.index - 4) a))
  else
    (some (mergeU e 0 (handle.index - 4) [])).bind
      (copyBeforeU (e.arg (handle.index - 3)) ':')

/-- A bounded buffer stage mirrors its unbounded counterpart: on buffers
within the limit it returns the unbounded result filtered by the length
check. -/
def MirrorsB (b u : TString → Option TString) : Prop :=
  ∀ acc, acc.length ≤ TASKNAME_MAXLEN →
    b acc = match u acc with
      | none => none
      | some r => if r.length ≤ TASKNAME_MAXLEN then some r else none

/-- An unbounded stage never shrinks the buffer. -/
def GrowsU (u : TString → Option TString) : Prop :=
  ∀ acc r, u acc = some r → acc.length ≤ r.length

theorem tn_append_len (acc frag : TString) :
    acc.length ≤ (tn_append acc frag).length := by
  unfold tn_append
  split
  case isTrue h =>
    rw [List.isEmpty_iff] at h
    subst h
    simp
  case isFalse h =>
    simp

theorem mirrors_copyAfter (t : TString) (ch : Char) :
    MirrorsB (copy_tstring_after_char_ t ch) (copyAfterU t ch) := by
  intro acc _
  unfold copy_tstring_after_char_ copyAfterU
  cases afterFirstChar t ch <;> simp [tn_appendB]

theorem mirrors_copyBefore (t : TString) (ch : Char) :
    MirrorsB (copy_tstring_before_char_ t ch) (copyBeforeU t ch) := by
  intro acc _
  unfold copy_tstring_before_char_ copyBeforeU
  cases beforeLastChar t ch <;> simp [tn_appendB]

theorem grows_copyAfter (t : TString) (ch : Char) : GrowsU (copyAfterU t ch) := by
  intro acc r h
  unfold copyAfterU at h
  cases hf : afterFirstChar t ch with
  | none => rw [hf] at h; simp at h
  | some frag =>
    rw [hf] at h
    simp only [Option.some_bind, Option.some_inj] at h
    exact h ▸ tn_append_len acc frag

theorem grows_copyBefore (t : TString) (ch : Char) : GrowsU (copyBeforeU t ch) := by
  intro acc r h
  unfold copyBeforeU at h
  cases hf : beforeLastChar t ch with
  | none => rw [hf] at h; simp at h
  | some frag =>
    rw [hf] at h
    simp only [Option.some_bind, Option.some_inj] at h
    exact h ▸ tn_append_len acc frag

theorem foldB_none (l : List Int) (e : TraceEvent) :
    l.foldl (fun oacc i => oacc.bind (fun a => tn_appendB a (e.arg i))) none = none := by
  induction l with
  | nil => rfl
  | cons i is ih => simpa using ih

theorem foldU_mono (l : List Int) (e : TraceEvent) :
    ∀ acc : TString,
      acc.length ≤ (l.foldl (fun a i => tn_append a (e.arg i)) acc).length := by
  induction l with
  | nil => intro acc; simp
  | cons i is ih =>
    intro acc
    simp only [List.foldl]
    exact le_trans (tn_append_len acc (e.arg i)) (ih _)

theorem foldB_eq (l : List Int) (e : TraceEvent) :
    ∀ acc : TString, acc.length ≤ TASKNAME_MAXLEN →
      l.foldl (fun oacc i => oacc.bind (fun a => tn_appendB a (e.arg i))) (some acc)
        = (if (l.foldl (fun a i => tn_append a (e.arg i)) acc).length ≤ TASKNAME_MAXLEN
            then some (l.foldl (fun a i => tn_append a (e.arg i)) acc) else none) := by
  induction l with
  | nil =>
    intro acc hacc
    simp [if_pos hacc]
  | cons i is ih =>
    intro acc hacc
    simp only [List.foldl, Option.some_bind]
    by_cases hm : (tn_append acc (e.arg i)).length ≤ TASKNAME_MAXLEN
    · rw [show tn_appendB acc (e.arg i) = some (tn_append acc (e.arg i)) from by
        unfold tn_appendB; rw [if_pos hm]]
      exact ih _ hm
    · rw [show tn_appendB acc (e.arg i) = none from by
        unfold tn_appendB; rw [if_neg hm]]
      rw [foldB_none]
      have := foldU_mono is e (tn_append acc (e.arg i))
      rw [if_neg (by omega)]

theorem mirrors_merge (e : TraceEvent) (b d : Int) :
    MirrorsB (merge_args_into_cstring e b d) (fun a => some (mergeU e b d a)) := by
  intro acc hacc
  unfold merge_args_into_cstring mergeU
  rw [foldB_eq _ _ acc hacc]

theorem grows_mergeU (e : TraceEvent) (b d : Int) :
    GrowsU (fun a => some (mergeU e b d a)) := by
  intro acc r h
  simp only [Option.some_inj] at h
  exact h ▸ foldU_mono _ e acc

theorem mirrors_comp {b1 u1 b2 u2 : TString → Option TString}
    (h1 : MirrorsB b1 u1) (h2 : MirrorsB b2 u2) (g2 : GrowsU u2) :
    MirrorsB (fun a => (b1 a).bind b2) (fun a => (u1 a).bind u2) := by
  intro acc hacc
  simp only []
  rw [h1 acc hacc]
  cases hu1 : u1 acc with
  | none => simp
  | some m =>
    show (if List.length m ≤ TASKNAME_MAXLEN then some m else none).bind b2
        = match u2 m with
          | none => none
          | some r => if List.length r ≤ TASKNAME_MAXLEN then some r else none
    by_cases hm : m.length ≤ TASKNAME_MAXLEN
    · rw [if_pos hm]
      simp only [Option.some_bind]
      exact h2 m hm
    · rw [if_neg hm]
      simp only [Option.none_bind]
      cases hu2 : u2 m with
      | none => rfl
      | some r =>
        have hg := g2 m r hu2
        show (none : Option TString)
            = if List.length r ≤ TASKNAME_MAXLEN then some r else none
        rw [if_neg (by omega)]

/-- The length filter applied to a reconstructed name decides the bounded
functions' fate, with the modelled pool interning the survivors. -/
theorem strdup_of_mirrors {bb uu : Option TString}
    (hM : bb = match uu with
      | none => none
      | some r => if r.length ≤ TASKNAME_MAXLEN then some r else none)
    (name : TString) (hrec : uu = some name) :
    (TASKNAME_MAXLEN < name.length → bb.bind allocStringModel = none)
    ∧ (name.length ≤ TASKNAME_MAXLEN → bb.bind allocStringModel = some name) := by
  subst hrec
  constructor
  · intro hover
    rw [hM]
    show (if List.length name ≤ TASKNAME_MAXLEN then some name else none).bind
        allocStringModel = none
    rw [if_neg (by omega)]
    rfl
  · intro hfit
    rw [hM]
    show (if List.length name ≤ TASKNAME_MAXLEN then some name else none).bind
        allocStringModel = some name
    rw [if_pos hfit]
    rfl

/-- C4: a sched_switch task name whose reconstruction (merged across the
argument tokens, in either style) exceeds `TASKNAME_MAXLEN` makes the
name function return the null string, failing the line; a reconstruction
within the bound succeeds and returns the pooled name. -/
theorem sched_switch_name_overflow_fails :
    ∀ (e : TraceEvent) (h : sched_switch_handle) (name : TString),
      (sched_switch_newname_recon e h = some name →
        (TASKNAME_MAXLEN < name.length →
          perf_sched_switch_handle_newname_strdup_ e h = none)
        ∧ (name.length ≤ TASKNAME_MAXLEN →
          perf_sched_switch_handle_newname_strdup_ e h = some name))
      ∧ (sched_switch_oldname_recon e h = some name →
        (TASKNAME_MAXLEN < name.length →
          perf_sched_switch_handle_oldname_strdup_ e h = none)
        ∧ (name.length ≤ TASKNAME_MAXLEN →
          perf_sched_switch_handle_oldname_strdup_ e h = some name)) := by
  intro e h name
  constructor
  · intro hrec
    unfold perf_sched_switch_handle_newname_strdup_
    unfold sched_switch_newname_recon at hrec
    by_cases hd : h.is_distro_style = false
    · rw [if_pos hd] at hrec ⊢
      have hM := (mirrors_comp (mirrors_copyAfter (e.arg (h.index + 1)) '=')
          (mirrors_merge e (h.index + 2) (e.argc - 3))
          (grows_mergeU e (h.index + 2) (e.argc - 3))) [] (by simp)
      exact strdup_of_mirrors
        (by simpa [merge_args_into_cstring_nullterminate] using hM) name hrec
    · rw [if_neg hd] at hrec ⊢
      have hM := (mirrors_comp (mirrors_merge e (h.index + 1) (e.argc - 3))
          (mirrors_copyBefore (e.arg (e.argc - 2)) ':')
          (grows_copyBefore (e.arg (e.argc - 2)) ':')) [] (by simp)
      exact strdup_of_mirrors (by simpa using hM) name hrec
  · intro hrec
    unfold perf_sched_switch_handle_oldname_strdup_
    unfold sched_switch_oldname_recon at hrec
    by_cases hd : h.is_distro_style = false
    · rw [if_pos hd] at hrec ⊢
      have hM := (mirrors_comp (mirrors_copyAfter (e.arg 0) '=')
          (mirrors_merge e 1 (h.index - 4))
          (grows_mergeU e 1 (h.index - 4))) [] (by simp)
      exact strdup_of_mirrors
        (by simpa [merge_args_into_cstring_nullterminate] using hM) name hrec
    · rw [if_neg hd] at hrec ⊢
      have hM := (mirrors_comp (mirrors_merge e 0 (h.index - 4))
          (mirrors_copyBefore (e.arg (h.index - 3)) ':')
          (grows_copyBefore (e.arg (h.index - 3)) ':')) [] (by simp)
      exact strdup_of_mirrors (by simpa using hM) name hrec

/-- A distribution-style sched_switch whose new task name
(`aaaaaaaaaaaaaaaaaaaa`, 20 bytes) exceeds `TASKNAME_MAXLEN`. -/
def eS3big : TraceEvent :=
  ⟨["X:5".toList, "[120]".toList, "S".toList, "==>".toList,
    "aaaaaaaaaaaaaaaaaaaa:42".toList, "[120]".toList]⟩

/-- Witness for C4: on the S3 event the new name `bash` (4 bytes) is
pooled and returned; with a 20-byte name the function returns the null
string. -/
theorem sched_switch_name_overflow_fails_witness :
    perf_sched_switch_handle_newname_strdup_ eS3 hS3 = some "bash".toList
      ∧ perf_sched_switch_handle_newname_strdup_ eS3big hS3 = none := by
  constructor
  · exact ((sched_switch_name_overflow_fails eS3 hS3 "bash".toList).1
      (by decide)).2 (by decide)
  · exact ((sched_switch_name_overflow_fails eS3big hS3
      "aaaaaaaaaaaaaaaaaaaa".toList).1 (by decide)).1 (by decide)

/-! ### C9, C10: StatsLimitedModel (src/ui/statslimitedmodel.cpp)

The container/utility types it uses (`vtl::Time`, `vtl::TList`,
`vtl::AVLTree`, `vtl::heapsort`, Qt strings) are not under src/ and are
modelled from the spec: `vtl::Time` is the fixed-point time, modelled
exactly over `ℚ`; the AVL map is its in-order task sequence; `vtl::TList`
is a list; `vtl::heapsort` is the same custom heapsort family as
`TShark::heapsort` (spec §9), reused here. -/

/-- Modelled from the spec: the fields of the analyzer's `Task` record
(analyzer/task.h, not under src/) that StatsLimitedModel reads — pid,
display name, and the cursor-window statistics.  Named `TraceTask` here
because `Task` is taken by the Lean core library. -/
structure TraceTask where
  pid : Int
  displayName : String
  cursorTime : ℚ
  cursorPct : Nat

instance : Inhabited TraceTask := ⟨⟨0, "", 0, 0⟩⟩

/-- The idle task's name (src/ui/statslimitedmodel.cpp:60). -/
def swappername : String := "swapper"

/-- Modelled from the spec: `QString::compare` — lexicographic,
negative/zero/positive. -/
def qstringCompare (a b : String) : Int :=
  if a = b then 0 else if a < b then -1 else 1

/-- The comparator lambda of `StatsLimitedModel::setTaskMap`
(src/ui/statslimitedmodel.cpp:111-125): descending cursor time, then
display name, then pid difference. -/
def statsCmp (a b : TraceTask) : Int :=
  if a.cursorTime < b.cursorTime then 1
  else if b.cursorTime < a.cursorTime then -1
  else
    let c1 := qstringCompare a.displayName b.displayName
    if c1 ≠ 0 then c1 else a.pid - b.pid

namespace StatsLimitedModel

/-- `StatsLimitedModel::setTaskMap` (src/ui/statslimitedmodel.cpp:80-126).
State left in the model: the task list.  A null map only clears the list.
For a non-null map the loop appends every task with non-zero cursor time
while subtracting its cursor time from the idle task's budget
`delta * nrcpus`; the synthetic idle task (pid 0, "swapper") is appended
and the list heap-sorted with the comparator. -/
def setTaskMap (map : Option (List TraceTask)) (nrcpus : Nat) (lo hi : ℚ) : List TraceTask :=
  let delta := hi - lo
  match map with
  | none => []
  | some tasks =>
    let st := tasks.foldl
      (fun (st : List TraceTask × ℚ) task =>
        if task.cursorTime ≠ 0 then (st.1 ++ [task], st.2 - task.cursorTime) else st)
      ([], delta * (nrcpus : ℚ))
    let idle : TraceTask :=
      { pid := 0, displayName := swappername, cursorTime := st.2,
        cursorPct := (⌊10000 * (st.2 / delta + 1 / 20000)⌋).toNat }
    TShark.heapsort statsCmp (st.1 ++ [idle])

/-- `StatsLimitedModel::rowCount` (src/ui/statslimitedmodel.cpp:128-131). -/
def rowCount (taskList : List TraceTask) : Int := (taskList.length : Int)

/-- `StatsLimitedModel::rowToPid` (src/ui/statslimitedmodel.cpp:138-155). -/
def rowToPid (taskList : List TraceTask) (row : Int) : Int × Bool :=
  if row < 0 then (0, false)
  else if taskList.length ≤ row.toNat then (0, false)
  else ((taskList.getD row.toNat default).pid, true)

/-- `StatsLimitedModel::rowToName` (src/ui/statslimitedmodel.cpp:157-175). -/
def rowToName (taskList : List TraceTask) (errorStr : String) (row : Int) : String × Bool :=
  if row < 0 then (errorStr, false)
  else if taskList.length ≤ row.toNat then (errorStr, false)
  else ((taskList.getD row.toNat default).displayName, true)

/-- `StatsLimitedModel::rowToPct` (src/ui/statslimitedmodel.cpp:177-228).
Out-of-range rows and percentages of 1000% or more leave `str` untouched
with ok = false; otherwise the six-character `buf` rendering is returned
(including the source's comparison of `buf[0]` against the NUL character,
which is never true). -/
def rowToPct (taskList : List TraceTask) (str : String) (row : Int) : String × Bool :=
  if row < 0 then (str, false)
  else if taskList.length ≤ row.toNat then (str, false)
  else
    let pct := (taskList.getD row.toNat default).cursorPct
    let pcti := pct / 100
    let pctd := pct % 100
    if 1000 ≤ pcti then (str, false)
    else
      let p0 := pcti / 100
      let b0 : Char := if p0 = 0 then ' ' else Char.ofNat (48 + p0)
      let p1 := (pcti % 100) / 10
      let b1 : Char := if b0 = Char.ofNat 0 ∧ p1 = 0 then ' ' else Char.ofNat (48 + p1)
      let b2 : Char := Char.ofNat (48 + pcti % 10)
      let b4 : Char := Char.ofNat (48 + pctd / 10)
      let b5 : Char := Char.ofNat (48 + pctd % 10)
      (String.mk [b0, b1, b2, '.', b4, b5], true)

/-- Modelled from the spec: `vtl::Time::toQString` (not under src/) — the
textual rendering of a fixed-point time. -/
def timeToQString (t : ℚ) : String := toString t

/-- `StatsLimitedModel::rowToTime` (src/ui/statslimitedmodel.cpp:230-247). -/
def rowToTime (taskList : List TraceTask) (str : String) (row : Int) : String × Bool :=
  if row < 0 then (str, false)
  else if taskList.length ≤ row.toNat then (str, false)
  else (timeToQString (taskList.getD row.toNat default).cursorTime, true)

end StatsLimitedModel

/-- The Qt roles `data` distinguishes. -/
inductive ItemRole
  | display
  | textAlignment
  | other
deriving DecidableEq

/-- The `QVariant` results `data` produces: the empty variant, a string,
or the alignment flags. -/
inductive QVariant
  | empty
  | qstring (s : String)
  | alignLeftVCenter
deriving DecidableEq

namespace StatsLimitedModel

/-- `StatsLimitedModel::data` (src/ui/statslimitedmodel.cpp:250-292);
`valid` is `index.isValid()`, `row`/`column` the index coordinates. -/
def data (taskList : List TraceTask) (errorStr : String) (valid : Bool)
    (row column : Int) (role : ItemRole) : QVariant :=
  if valid = false then .empty
  else
    match role with
    | .textAlignment => .alignLeftVCenter
    | .display =>
      if column = 0 then
        let r := rowToName taskList errorStr row
        if r.2 then .qstring r.1 else .empty
      else if column = 1 then
        let r := rowToPid taskList row
        if r.2 then .qstring (toString r.1) else .empty
      else if column = 2 then
        let r := rowToPct taskList "" row
        if r.2 then .qstring r.1 else .empty
      else if column = 3 then
        let r := rowToTime taskList "" row
        if r.2 then .qstring r.1 else .empty
      else .empty
    | .other => .empty

end StatsLimitedModel

theorem statsFold_spec (tasks : List TraceTask) :
    ∀ (acc : List TraceTask) (time : ℚ),
      tasks.foldl
        (fun (st : List TraceTask × ℚ) task =>
          if task.cursorTime ≠ 0 then (st.1 ++ [task], st.2 - task.cursorTime) else st)
        (acc, time)
      = (acc ++ tasks.filter (fun t => t.cursorTime ≠ 0),
          time - ((tasks.filter (fun t => t.cursorTime ≠ 0)).map
            TraceTask.cursorTime).sum) := by
  induction tasks with
  | nil => intro acc time; simp
  | cons t ts ih =>
    intro acc time
    by_cases ht : t.cursorTime ≠ 0
    · simp only [List.foldl, if_pos ht]
      rw [ih]
      simp [List.filter_cons, ht, List.append_assoc, sub_sub]
    · simp only [List.foldl, if_neg ht]
      rw [ih]
      simp [List.filter_cons, ht]

theorem sumCursor_filter (tasks : List TraceTask) :
    ((tasks.filter (fun t => t.cursorTime ≠ 0)).map TraceTask.cursorTime).sum
      = (tasks.map TraceTask.cursorTime).sum := by
  induction tasks with
  | nil => rfl
  | cons t ts ih =>
    by_cases ht : t.cursorTime ≠ 0
    · rw [List.filter_cons_of_pos (by simpa using ht)]
      simp only [List.map_cons, List.sum_cons]
      rw [ih]
    · have ht0 : t.cursorTime = 0 := by
        by_contra hc
        exact ht hc
      rw [List.filter_cons_of_neg (by simpa using ht)]
      simp only [List.map_cons, List.sum_cons]
      rw [ih, ht0, zero_add]

/-- C9: after `setTaskMap` with a non-null map, CPU time in the cursor
window is conserved: the synthetic idle task's cursorTime is
`nrcpus * (higherTimeLimit - lowerTimeLimit)` minus the sum of cursorTime
over all tasks of the map, and the resulting task list holds exactly the
map's tasks with non-zero cursorTime plus that idle task, so `rowCount`
is their count plus one. -/
theorem setTaskMap_conservation :
    ∀ (tasks : List TraceTask) (nrcpus : Nat) (lo hi : ℚ),
      ∃ idle : TraceTask,
        idle.pid = 0 ∧ idle.displayName = swappername
        ∧ idle.cursorTime
            = (hi - lo) * (nrcpus : ℚ) - (tasks.map TraceTask.cursorTime).sum
        ∧ (StatsLimitedModel.setTaskMap (some tasks) nrcpus lo hi).Perm
            (tasks.filter (fun t => t.cursorTime ≠ 0) ++ [idle])
        ∧ StatsLimitedModel.rowCount
            (StatsLimitedModel.setTaskMap (some tasks) nrcpus lo hi)
          = ((tasks.filter (fun t => t.cursorTime ≠ 0)).length : Int) + 1 := by
  intro tasks nrcpus lo hi
  have hst := statsFold_spec tasks [] ((hi - lo) * (nrcpus : ℚ))
  have heq : StatsLimitedModel.setTaskMap (some tasks) nrcpus lo hi
      = TShark.heapsort statsCmp
          (tasks.filter (fun t => t.cursorTime ≠ 0)
            ++ [{ pid := 0, displayName := swappername,
                  cursorTime := (hi - lo) * (nrcpus : ℚ)
                    - (tasks.map TraceTask.cursorTime).sum,
                  cursorPct := (⌊10000 * (((hi - lo) * (nrcpus : ℚ)
                    - (tasks.map TraceTask.cursorTime).sum) / (hi - lo)
                      + 1 / 20000)⌋).toNat }]) := by
    unfold StatsLimitedModel.setTaskMap
    simp only [hst, List.nil_append, sumCursor_filter]
  refine ⟨{ pid := 0, displayName := swappername,
            cursorTime := (hi - lo) * (nrcpus : ℚ)
              - (tasks.map TraceTask.cursorTime).sum,
            cursorPct := (⌊10000 * (((hi - lo) * (nrcpus : ℚ)
              - (tasks.map TraceTask.cursorTime).sum) / (hi - lo)
                + 1 / 20000)⌋).toNat },
          rfl, rfl, rfl, ?_, ?_⟩
  · rw [heq]
    exact TShark.heapsort_perm statsCmp _
  · unfold StatsLimitedModel.rowCount
    rw [heq]
    rw [(TShark.heapsort_perm statsCmp _).length_eq]
    simp

/-- C10: for every row outside `[0, taskList size)` the row accessors set
ok = false and return a harmless default — 0 for the pid, the error
string for the name, the output string untouched for the percentage and
the time — and `data` consequently returns the empty QVariant for every
column of such rows at the display role. -/
theorem row_accessors_oob_safe :
    ∀ (tl : List TraceTask) (err s : String) (row : Int),
      (row < 0 ∨ (tl.length : Int) ≤ row) →
      StatsLimitedModel.rowToPid tl row = (0, false)
      ∧ StatsLimitedModel.rowToName tl err row = (err, false)
      ∧ StatsLimitedModel.rowToPct tl s row = (s, false)
      ∧ StatsLimitedModel.rowToTime tl s row = (s, false)
      ∧ ∀ column : Int,
          StatsLimitedModel.data tl err true row column ItemRole.display
            = QVariant.empty := by
  intro tl err s row hrow
  have hpid : StatsLimitedModel.rowToPid tl row = (0, false) := by
    unfold StatsLimitedModel.rowToPid
    rcases hrow with h | h
    · rw [if_pos h]
    · rw [if_neg (by omega), if_pos (by omega)]
  have hname : StatsLimitedModel.rowToName tl err row = (err, false) := by
    unfold StatsLimitedModel.rowToName
    rcases hrow with h | h
    · rw [if_pos h]
    · rw [if_neg (by omega), if_pos (by omega)]
  have hpct : ∀ str : String, StatsLimitedModel.rowToPct tl str row = (str, false) := by
    intro str
    unfold StatsLimitedModel.rowToPct
    rcases hrow with h | h
    · rw [if_pos h]
    · rw [if_neg (by omega), if_pos (by omega)]
  have htime : ∀ str : String, StatsLimitedModel.rowToTime tl str row = (str, false) := by
    intro str
    unfold StatsLimitedModel.rowToTime
    rcases hrow with h | h
    · rw [if_pos h]
    · rw [if_neg (by omega), if_pos (by omega)]
  refine ⟨hpid, hname, hpct s, htime s, ?_⟩
  intro column
  unfold StatsLimitedModel.data
  rw [if_neg (by simp)]
  by_cases h0 : column = 0
  · subst h0
    simp [hname]
  by_cases h1 : column = 1
  · subst h1
    simp [hpid]
  by_cases h2 : column = 2
  · subst h2
    simp [hpct ""]
  by_cases h3 : column = 3
  · subst h3
    simp [htime ""]
  simp [h0, h1, h2, h3]

/-- Witness for C10: the empty task list with row 0 (out of range). -/
theorem row_accessors_oob_safe_witness :
    StatsLimitedModel.rowToPid [] 0 = (0, false)
      ∧ StatsLimitedModel.rowToName [] "err" 0 = ("err", false)
      ∧ StatsLimitedModel.data [] "err" true 0 2 ItemRole.display
          = QVariant.empty := by
  have h := row_accessors_oob_safe [] "err" "s" 0 (Or.inr (by simp))
  exact ⟨h.1, h.2.1, h.2.2.2.2 2⟩
